import Mathlib

/-!
Verification of the conversation-orchestration engine of the SupaAI assistant
backend (Supabase edge functions, `src/services/assistant/*`).

The TypeScript sources are shallowly embedded: JS strings become `List Char`,
the Supabase store becomes an in-memory `Store` threaded through an explicit
state-and-error monad `M`, the OpenAI chat completion endpoint becomes a
script of replies consumed in order, and external collaborators that are not
part of this repository (JSON.parse / JSON.stringify, the embedding provider,
the LangChain text splitter, the `match_embeddings` RPC) are modelled as
function parameters collected in `Env`.  Every asynchronous await point of the
source is sequentialised; `Promise.all` fan-outs are executed left-to-right,
which preserves all data visible to the claims (indices, contents, counts).
-/

namespace SupaAI

/-- Error codes, mirroring `AppErrorCode` in `error.utils.ts`. -/
inductive AppErrorCode where
  | unauthorized
  | validationError
  | internalError
  | notFound
  | databaseError
deriving DecidableEq, Repr

/-- A thrown `AppError` (message plus code; the structured context map is not
needed by any claim and is omitted). -/
structure AppError where
  msg : List Char
  code : AppErrorCode
deriving DecidableEq, Repr

/-- Chat roles, mirroring `ChatRole` in `ai.integration.ts` (the unused
`Function` member is omitted). -/
inductive ChatRole where
  | system
  | user
  | assistant
  | tool
deriving DecidableEq, Repr

/-- JSON values, the data exchanged with `JSON.parse` / `JSON.stringify` and
returned by tools. -/
inductive Json where
  | null
  | bool (b : Bool)
  | num (n : Int)
  | str (s : List Char)
  | arr (elems : List Json)
  | obj (fields : List (List Char × Json))

/-- A `Thread` row of `assistant_threads` (timestamps omitted: no claim
mentions them). -/
structure Thread where
  id : List Char
  userId : List Char
  title : List Char
  userObjectives : List (List Char)
deriving DecidableEq, Repr

/-- A `MessageEmbedding` row of `assistant_message_embeddings`. -/
structure MessageEmbedding where
  id : Nat
  threadId : List Char
  orderIndex : Nat
  chunkIndex : Nat
  role : ChatRole
  content : List Char
  embedding : List Char
deriving DecidableEq, Repr

/-- External collaborators of the orchestration kernel, specified only at
their interface boundary: the JS `JSON.parse` builtin, the OpenAI embedding
provider (`generateEmbeddings` serialises the vector to a string), the
LangChain text splitter (`splitTextIntoChunks`), the `match_embeddings`
similarity RPC (membership and raw order of the retrieved fragments for a
given thread and query embedding), and a failure oracle for the thread-update
store write (a rejected Supabase call). -/
structure Env where
  jsonParse : List Char → Option Json
  embed : List Char → List Char
  splitChunks : List Char → List (List Char)
  rpcMatch : List Char → List Char → List MessageEmbedding
  updateThreadErr : Option (List Char)

/-
Character-list utilities modelling the JS string operations used by the
sources (`trim`, `toLowerCase`, per-line regex scanning, `String.match`).
-/

/-- The whitespace characters relevant to the modelled strings (JS `\s` and
`String.trim` cover more code points; none occur in the claims). -/
def isWsChar (c : Char) : Bool :=
  c = ' ' || c = '\t' || c = '\n' || c = '\r'

/-- Drop leading whitespace. -/
def trimLeft (w : List Char) : List Char := w.dropWhile isWsChar

/-- Drop trailing whitespace. -/
def trimRight (w : List Char) : List Char := (w.reverse.dropWhile isWsChar).reverse

/-- JS `String.prototype.trim`. -/
def wtrim (w : List Char) : List Char := trimRight (trimLeft w)

/-- JS `String.prototype.toLowerCase` (ASCII is all the sources need). -/
def lowerStr (w : List Char) : List Char := w.map Char.toLower

/-- Predicate: `leadsWith sep w` holds when `sep` is an initial segment of `w`. -/
def leadsWith : List Char → List Char → Bool
  | [], _ => true
  | _ :: _, [] => false
  | a :: as, b :: bs => a = b && leadsWith as bs

/-- Split `w` into its lines (the line structure over which a multiline
regex iterates). -/
def splitLines : List Char → List (List Char)
  | [] => [[]]
  | c :: cs =>
    if c = '\n' then [] :: splitLines cs
    else
      match splitLines cs with
      | [] => [[c]]
      | p :: ps => (c :: p) :: ps

/-- Split `w` at the first occurrence of `sep`, returning the part before and
the part after the occurrence (`String.match` with a non-global regex). -/
def splitAtFirst (sep : List Char) : List Char → Option (List Char × List Char)
  | [] => none
  | c :: cs =>
    if leadsWith sep (c :: cs) = true ∧ sep ≠ [] then
      some ([], (c :: cs).drop sep.length)
    else
      match splitAtFirst sep cs with
      | some (a, b) => some (c :: a, b)
      | none => none

/-- Join pieces with a separator. -/
def intercalateL (sep : List Char) : List (List Char) → List Char
  | [] => []
  | [p] => p
  | p :: ps => p ++ sep ++ intercalateL sep ps

/-
`extractUserObjectives` (ai.utils.ts, lines 243-253): the global multiline
regex `USER_OBJECTIVE:\s*(.+)$` repeatedly matches the case-sensitive marker,
greedy whitespace, then at least one non-line-terminator character up to a
line end, and collects each capture trimmed.  When every match stays confined
to the marker's own line — the marked text holds a non-whitespace character
(otherwise the greedy `\s*`, which in JavaScript also consumes line breaks,
lets the capture spill onto a following line) and contains no line terminator
other than `'\n'` (a carriage return, a line terminator for `.` and the
multiline `$`, would end the capture early) — the scan degenerates to one
candidate per `'\n'`-separated line, which is what is modelled here.  The
extraction theorems quantify only over texts inside that line-confined
domain; the concrete fixture contents used elsewhere (plain one-line replies
and `USER_OBJECTIVE: x`) also lie inside it.
-/

def objectiveMarker : List Char := ("USER_OBJECTIVE:".data)

/-- The per-line match of the objectives regex: text after the first
occurrence of `USER_OBJECTIVE:`, trimmed; `none` when the marker is absent or
followed by the empty string. -/
def lineObjective (line : List Char) : Option (List Char) :=
  match splitAtFirst objectiveMarker line with
  | none => none
  | some (_, rest) => if rest = [] then none else some (wtrim rest)

/-- Model of `extractUserObjectives`: one candidate per line, in order (valid
on the line-confined domain described above). -/
def extractUserObjectives (content : List Char) : List (List Char) :=
  (splitLines content).filterMap lineObjective

/-- Predicate: printable ASCII (space through tilde).  Within this range the
only JavaScript whitespace character is the space — so `\s*` cannot cross a
line break inside such text, JavaScript `trim` and `wtrim` agree on it, and
no character of it is a line terminator for `.` or the multiline `$`. -/
def plainChar (c : Char) : Bool := decide (' ' ≤ c) && decide (c ≤ '~')

/-
`extractEntityChanges` (ai.utils.ts, lines 274-329): for each of the three
markers, a case-insensitive search finds the first occurrence, the captured
block runs (lazily) until the first case-insensitive occurrence of either of
the other two markers or the end of the text, is trimmed, and is parsed as
JSON; a single object is normalised to a one-element array; an empty or
malformed block yields the empty list.
-/

/-- Text after the first case-insensitive occurrence of `marker` (which is
given in lower case), keeping the original casing of the remainder. -/
def occAfterCI (marker : List Char) (w : List Char) : Option (List Char) :=
  match splitAtFirst marker (lowerStr w) with
  | none => none
  | some (a, _) => some (w.drop (a.length + marker.length))

/-- Index of the first case-insensitive occurrence of `marker` in `w`
(`w` is examined lowered; `marker` is given in lower case). -/
def occIdxCI (marker : List Char) (w : List Char) : Option Nat :=
  (splitAtFirst marker (lowerStr w)).map (fun p => p.1.length)

/-- Cut the captured block at the earliest of the other two markers
(the lookahead `(?=OTHER1|OTHER2|$)` of the lazy capture). -/
def cutBlock (rest : List Char) (m1 m2 : List Char) : List Char :=
  match occIdxCI m1 rest, occIdxCI m2 rest with
  | some i, some j => rest.take (min i j)
  | some i, none => rest.take i
  | none, some j => rest.take j
  | none, none => rest

/-- Normalise a parse result to a list: arrays stay, a single value is
wrapped, a parse failure becomes the empty list. -/
def normalizeParsed : Option Json → List Json
  | some (Json.arr xs) => xs
  | some j => [j]
  | none => []

/-- One marker's block of `extractEntityChanges`. -/
def entityBlock (env : Env) (content : List Char)
    (self other1 other2 : List Char) : List Json :=
  match occAfterCI self content with
  | none => []
  | some rest =>
    let block := wtrim (cutBlock rest other1 other2)
    if block = [] then [] else normalizeParsed (env.jsonParse block)

def createdMarker : List Char := ("created:".data)
def updatedMarker : List Char := ("updated:".data)
def deletedMarker : List Char := ("deleted:".data)

/-- The three entity-change lists of one response text. -/
structure EntityChanges where
  created : List Json
  updated : List Json
  deleted : List Json

/-- Model of `extractEntityChanges` itself. -/
def extractEntityChanges (env : Env) (content : List Char) : EntityChanges :=
  { created := entityBlock env content createdMarker updatedMarker deletedMarker
    updated := entityBlock env content updatedMarker createdMarker deletedMarker
    deleted := entityBlock env content deletedMarker createdMarker updatedMarker }

/-
Model invocation (ai.utils.ts).  The provider's raw reply is the completion
content plus the optional tool-call list (`tool_calls` is absent when the
model requests none); a turn's provider replies are held in a script consumed
in order by `executeAICallM` below.
-/

/-- One tool-call request emitted by the model. -/
structure ToolCall where
  id : List Char
  name : List Char
  arguments : List Char
deriving DecidableEq, Repr

/-- The provider's raw chat-completion reply. -/
structure RawAIReply where
  content : List Char
  toolCalls : Option (List ToolCall)
deriving DecidableEq, Repr

/-- Model of `AIExecutionResult`: `created`/`updated`/`deleted` are `none` exactly
when the executor left the fields undefined. -/
structure AIExecutionResult where
  message : List Char
  toolCalls : Option (List ToolCall)
  userObjectives : List (List Char)
  created : Option (List Json)
  updated : Option (List Json)
  deleted : Option (List Json)

/-- Model of `processAIResponse` (ai.utils.ts, lines 255-272): applied by the
streaming path to the accumulated content and tool-call array; extracts both
the objective directives and the entity-change blocks, and nulls an empty
tool-call list. -/
def processAIResponse (env : Env) (content : List Char)
    (toolCalls : List ToolCall) : AIExecutionResult :=
  { message := content
    toolCalls := if toolCalls.isEmpty then none else some toolCalls
    userObjectives := extractUserObjectives content
    created := some (extractEntityChanges env content).created
    updated := some (extractEntityChanges env content).updated
    deleted := some (extractEntityChanges env content).deleted }

/-- Model of `executeDefaultAICall` (ai.utils.ts, lines 172-225), non-streaming: the
result carries the raw content, the raw `tool_calls || null`, and the
extracted objectives; the entity-change fields are never assigned.  (The
structured-output parsing of `responseFormat` is not touched by any claim and
is omitted.) -/
def executeDefaultAICallP (raw : RawAIReply) : AIExecutionResult :=
  { message := raw.content
    toolCalls := raw.toolCalls
    userObjectives := extractUserObjectives raw.content
    created := none
    updated := none
    deleted := none }

/-- Model of `executeStreamingAICall` (ai.utils.ts, lines 122-170), streaming without
a response format: tokens and tool-call deltas are accumulated (transport
mechanics are outside this model's scope) and the whole reply is handed to
`processAIResponse`. -/
def executeStreamingAICallP (env : Env) (raw : RawAIReply) : AIExecutionResult :=
  processAIResponse env raw.content (raw.toolCalls.getD [])

/-
JSON serialisation (the JS `JSON.stringify` builtin, as used for tool results
and error payloads).
-/

/-- Minimal string escaping of `JSON.stringify`. -/
def escapeJsonChar (c : Char) : List Char :=
  if c = '"' ∨ c = '\\' then ['\\', c] else [c]

mutual

/-- Model of `JSON.stringify` on the modelled values. -/
def jsonStringify : Json → List Char
  | Json.null => ("null".data)
  | Json.bool true => ("true".data)
  | Json.bool false => ("false".data)
  | Json.num n => (toString n).data
  | Json.str s => '"' :: (s.map escapeJsonChar).flatten ++ ['"']
  | Json.arr xs => '[' :: jsonStringifyList xs ++ [']']
  | Json.obj fs => '{' :: jsonStringifyFields fs ++ ['}']

def jsonStringifyList : List Json → List Char
  | [] => []
  | [x] => jsonStringify x
  | x :: xs => jsonStringify x ++ ',' :: jsonStringifyList xs

def jsonStringifyFields : List (List Char × Json) → List Char
  | [] => []
  | [f] => '"' :: (f.1.map escapeJsonChar).flatten ++ '"' :: ':' :: jsonStringify f.2
  | f :: fs =>
    '"' :: (f.1.map escapeJsonChar).flatten ++ '"' :: ':' :: jsonStringify f.2
      ++ ',' :: jsonStringifyFields fs

end

/-
Tool registry (`tool.utils.ts`) and per-call handling (`ai.utils.ts`,
lines 334-426).
-/

/-- A registered `AssistantTool`: `validate` models `validateArgs` (Zod
`safeParse`, throwing `VALIDATION_ERROR` on failure) and `exec` models
`execute` (the bound call function with its `handleAppError` wrapper, so a
failing tool surfaces as an `AppError`).  The description and capability
classification play no role in execution and are omitted. -/
structure ToolM where
  name : List Char
  validate : Json → Except AppError Json
  exec : Json → Except AppError Json

/-- Model of `getTool`: lookup by exact name; a missing name throws `NOT_FOUND`
(message shaped by `throwAppError`). -/
def getToolE (name : List Char) (tools : List ToolM) : Except AppError ToolM :=
  match tools.find? (fun t => decide (t.name = name)) with
  | some t => Except.ok t
  | none => Except.error ⟨("Tool not found: ".data) ++ name ++ (": ".data), AppErrorCode.notFound⟩

/-- Model of `parseToolArguments`: JSON-parse the raw argument string; invalid JSON is
a `VALIDATION_ERROR`. -/
def parseToolArgumentsE (env : Env) (raw : List Char) : Except AppError Json :=
  match env.jsonParse raw with
  | some j => Except.ok j
  | none => Except.error ⟨("Invalid tool arguments format: ".data), AppErrorCode.validationError⟩

/-- The serialised `{ error: message }` payload of a failed tool call. -/
def errorPayload (m : List Char) : List Char :=
  jsonStringify (Json.obj [(("error".data), Json.str m)])

/-- A successful tool result becomes the message content: strings verbatim,
anything else serialised. -/
def toolResultContent (j : Json) : List Char :=
  match j with
  | Json.str s => s
  | j => jsonStringify j

/-
State, effects and the execution monad.  Errors are JS exceptions (always
`AppError`s along the modelled paths); a computation returns the state
reached so far even when it throws, so that "no side effects before the
error" is expressible.
-/

/-- Observable external effects, recorded in order: store reads and writes,
embedding-provider calls, chat-completion calls, and tool executions. -/
inductive Eff where
  | dbRead
  | dbWrite
  | embedCall
  | modelCall
  | toolExec
deriving DecidableEq, Repr

/-- The durable store: thread rows, message-embedding rows, and the id
supplies of the database (`gen_random_uuid()` for threads, a row id counter
for fragments). -/
structure Store where
  threads : List Thread
  msgs : List MessageEmbedding
  threadCounter : Nat
  msgCounter : Nat
deriving DecidableEq, Repr

/-- The full execution state: the store, the remaining scripted provider
replies, and the effect trace. -/
structure AState where
  store : Store
  script : List RawAIReply
  trace : List Eff
deriving DecidableEq, Repr

/-- Outcome of a stateful computation. -/
inductive Res (α : Type) where
  | ok (a : α) (s : AState)
  | err (e : AppError) (s : AState)

/-- The execution monad: state in, value-or-exception plus state out. -/
def M (α : Type) : Type := AState → Res α

/-- Record one effect. -/
def logEff (e : Eff) (s : AState) : AState :=
  { s with trace := s.trace ++ [e] }

/-
Thread-store access (`db.utils.ts`).  The in-memory store models a healthy
database: reads and row inserts succeed; the thread-update write consults the
failure oracle `Env.updateThreadErr` (a rejected provider call surfaces as
`DATABASE_ERROR` through `handleAppError`).
-/

/-- The `gen_random_uuid()` of a thread insert: an identifier supplied by the
store, fresh with respect to the rows it has created. -/
def freshTid (st : Store) : List Char :=
  't' :: Nat.toDigits 10 st.threadCounter

/-- The row a select-by-id query finds, if any. -/
def threadRow (st : Store) (tid : List Char) : Option Thread :=
  st.threads.find? (fun th => decide (th.id = tid))

/-- Model of `readThread`: select by id with `.single()`.  `.single()`
reports the provider error `PGRST116` when the id matches no row, and the
source maps that signal to a thrown `UNAUTHORIZED` — so against a healthy
store a missing id throws rather than returning `null`.  The `null` result
(`Except.ok none`) exists in the source's type but is reached only when the
store fails with some other error, which the healthy in-memory store never
does. -/
def readThreadE (st : Store) (tid : List Char) : Except AppError (Option Thread) :=
  match threadRow st tid with
  | some th => Except.ok (some th)
  | none => Except.error ⟨("Get Thread Error: ".data), AppErrorCode.unauthorized⟩

/-- Model of `createThread`: insert a row owned by `userId`, titled `title`, with
empty objectives. -/
def createThreadM (userId title : List Char) : M Thread := fun s =>
  let th : Thread := ⟨freshTid s.store, userId, title, []⟩
  Res.ok th (logEff Eff.dbWrite
    { s with store := { s.store with
        threads := s.store.threads ++ [th]
        threadCounter := s.store.threadCounter + 1 } })

/-- Model of `updateThread` restricted to the objectives replacement the orchestrator
performs: wholesale replacement of `user_objectives`; a rejected store call
(the oracle) throws `DATABASE_ERROR`. -/
def updateThreadM (env : Env) (tid : List Char) (objectives : List (List Char)) : M Unit :=
  fun s =>
  match env.updateThreadErr with
  | some m => Res.err ⟨("Update Thread Error: ".data) ++ m, AppErrorCode.databaseError⟩
      (logEff Eff.dbWrite s)
  | none =>
    let threads' := s.store.threads.map
      (fun th => if th.id = tid then { th with userObjectives := objectives } else th)
    Res.ok () (logEff Eff.dbWrite { s with store := { s.store with threads := threads' } })

/-- Model of `createMessage`: insert one message-embedding row. -/
def createMessageM (tid : List Char) (orderIndex chunkIndex : Nat) (role : ChatRole)
    (content embedding : List Char) : M MessageEmbedding := fun s =>
  let msg : MessageEmbedding :=
    ⟨s.store.msgCounter, tid, orderIndex, chunkIndex, role, content, embedding⟩
  Res.ok msg (logEff Eff.dbWrite
    { s with store := { s.store with
        msgs := s.store.msgs ++ [msg]
        msgCounter := s.store.msgCounter + 1 } })

/-- Store-level errors of the Supabase reply: the provider's unauthorized
signal (`PGRST116`) or any other error. -/
inductive DbErr where
  | pgrst116
  | other (m : List Char)

/-- Model of `getNextOrderIndex` (db.utils.ts, lines 261-295) as a function of the
store reply (the top-1 `order_index` rows, descending): `PGRST116` throws
`UNAUTHORIZED`; any other error, absent data or an empty row set yields `1`;
otherwise the highest index plus one. -/
def getNextOrderIndexFromReply (reply : Except DbErr (List Nat)) : Except AppError Nat :=
  match reply with
  | Except.error DbErr.pgrst116 =>
    Except.error ⟨("Get Next Order Index Error: ".data), AppErrorCode.unauthorized⟩
  | Except.error (DbErr.other _) => Except.ok 1
  | Except.ok [] => Except.ok 1
  | Except.ok (oi :: _) => Except.ok (oi + 1)

/-- Largest element of a list of naturals (`0` when empty). -/
def maxNat (l : List Nat) : Nat := l.foldr max 0

/-- The order indices of a thread's rows. -/
def threadOrderIndexes (st : Store) (tid : List Char) : List Nat :=
  (st.msgs.filter (fun m => decide (m.threadId = tid))).map (fun m => m.orderIndex)

/-- The row set returned by the store for the top-1 descending
`order_index` query. -/
def orderIndexRows (st : Store) (tid : List Char) : List Nat :=
  match threadOrderIndexes st tid with
  | [] => []
  | l => [maxNat l]

/-- Model of `getNextOrderIndex` against the healthy in-memory store. -/
def nextOrderIndexPure (st : Store) (tid : List Char) : Nat :=
  match orderIndexRows st tid with
  | [] => 1
  | oi :: _ => oi + 1

/-- Model of `getNextOrderIndex` in the monad (one store read). -/
def getNextOrderIndexM (tid : List Char) : M Nat := fun s =>
  Res.ok (nextOrderIndexPure s.store tid) (logEff Eff.dbRead s)

/-- Model of `generateEmbeddings` (ai.integration.ts): one embedding-provider call. -/
def generateEmbeddingsM (env : Env) (text : List Char) : M (List Char) := fun s =>
  Res.ok (env.embed text) (logEff Eff.embedCall s)

/-- Model of `generateEmbeddingChunks`: split the text, embed each piece (one provider
call per piece). -/
def generateEmbeddingChunksM (env : Env) (text : List Char) :
    M (List (List Char × List Char)) := fun s =>
  let pieces := env.splitChunks text
  Res.ok (pieces.map (fun p => (p, env.embed p)))
    { s with trace := s.trace ++ List.replicate pieces.length Eff.embedCall }

/-- Model of `findSimilarMessages`: embed the query, call the `match_embeddings` RPC
(one store read); membership and raw order come from the external RPC. -/
def findSimilarMessagesM (env : Env) (tid query : List Char) :
    M (List MessageEmbedding) := fun s =>
  Res.ok (env.rpcMatch tid (env.embed query)) (logEff Eff.dbRead (logEff Eff.embedCall s))

/-
The orchestrator (`assistant.service.ts`) and the tool-call resolution loop
(`ai.utils.ts`, lines 431-582).
-/

/-- One entry of the chat-completion message history. -/
structure ChatMsg where
  role : ChatRole
  content : List Char
  toolCalls : Option (List ToolCall) := none
  toolCallId : Option (List Char) := none
deriving DecidableEq, Repr

/-- Model of `AssistantConfig`: title, system message, tools, the context validator of
the configured Zod schema, and whether an `onToken` callback is configured
(its transport is outside this model).  The retrieval parameters
(`similarity`, `matchCount`) configure the external RPC and are folded into
`Env.rpcMatch`. -/
structure AssistantConfigM where
  title : List Char
  systemMessage : List Char
  tools : List ToolM
  contextOk : Json → Bool
  hasOnToken : Bool

/-- Model of `AssistantRequest`. -/
structure AssistantRequestM where
  message : List Char
  userId : List Char
  threadId : Option (List Char)
  context : Json

/-- Model of `AssistantResponse`. -/
structure AssistantResponseM where
  message : List Char
  threadId : List Char
  created : List Json
  updated : List Json
  deleted : List Json

/-- Model of `AIExecutionConfig` as the orchestrator hands it to the executor. -/
structure ExecConfigM where
  messages : List ChatMsg
  hasOnToken : Bool
  hasResponseFormat : Bool

/-- Model of `Assistant.validateRequest` via `assistantRequestSchema`: non-empty
message, non-empty user id, context accepted by the configured schema.
A failure throws `VALIDATION_ERROR` before anything else runs. -/
def validateRequestE (cfg : AssistantConfigM) (req : AssistantRequestM) :
    Except AppError Unit :=
  if req.message ≠ [] ∧ req.userId ≠ [] ∧ cfg.contextOk req.context = true then Except.ok ()
  else Except.error ⟨("Invalid Assistant Request: ".data), AppErrorCode.validationError⟩

/-- Model of `Assistant.getThread`: a supplied, truthy (non-empty) thread id
is read via `readThread`; a resolved row is used, and a missing row makes
`readThread` throw UNAUTHORIZED (the PGRST116 branch), which propagates.  A
new thread owned by the requesting user and titled from the configuration is
created when no thread id is supplied (the empty string is falsy, so it also
skips the read), or on `readThread`'s `null` result — a path the healthy
store never takes. -/
def getThreadM (cfg : AssistantConfigM) (req : AssistantRequestM) : M Thread := fun s =>
  match req.threadId with
  | some tid =>
    if tid = [] then createThreadM req.userId cfg.title s
    else
      let s1 := logEff Eff.dbRead s
      match readThreadE s.store tid with
      | Except.error e => Res.err e s1
      | Except.ok (some th) => Res.ok th s1
      | Except.ok none => createThreadM req.userId cfg.title s1
  | none => createThreadM req.userId cfg.title s

/-- The bulleted objectives block appended to the system message. -/
def objectivesSuffix (objs : List (List Char)) : List Char :=
  ("\n\nUser Objectives:\n".data) ++ intercalateL ['\n'] (objs.map (fun o => ("- ".data) ++ o))

/-- The system content: the configured system message, with the thread's
accumulated objectives appended when there are any. -/
def systemContent (cfg : AssistantConfigM) (th : Thread) : List Char :=
  cfg.systemMessage ++ (if th.userObjectives = [] then [] else objectivesSuffix th.userObjectives)

/-- The comparison by which `prepareProcess` sorts retrieved fragments
(`(a, b) => a.orderIndex - b.orderIndex`). -/
def ordLe (a b : MessageEmbedding) : Prop := a.orderIndex ≤ b.orderIndex

instance : DecidableRel ordLe := fun a b => Nat.decLe a.orderIndex b.orderIndex

instance : IsTotal MessageEmbedding ordLe := ⟨fun a b => Nat.le_total a.orderIndex b.orderIndex⟩

instance : IsTrans MessageEmbedding ordLe := ⟨fun _ _ _ => Nat.le_trans⟩

/-- A retrieved fragment as a history entry. -/
def fragToChatMsg (m : MessageEmbedding) : ChatMsg :=
  { role := m.role, content := m.content }

/-- Model of `Assistant.prepareProcess`: system content first, then the retrieved
fragments sorted ascending by order index, then the new user message. -/
def prepareProcessM (env : Env) (cfg : AssistantConfigM) (req : AssistantRequestM)
    (th : Thread) : M ExecConfigM := fun s =>
  let sys : ChatMsg := { role := ChatRole.system, content := systemContent cfg th }
  let userMsg : ChatMsg := { role := ChatRole.user, content := req.message }
  if req.message ≠ [] then
    match findSimilarMessagesM env th.id req.message s with
    | Res.err e s1 => Res.err e s1
    | Res.ok sims s1 =>
      let sorted := List.insertionSort ordLe sims
      Res.ok { messages := sys :: (sorted.map fragToChatMsg ++ [userMsg])
               hasOnToken := cfg.hasOnToken
               hasResponseFormat := false } s1
  else
    Res.ok { messages := [sys, userMsg]
             hasOnToken := cfg.hasOnToken
             hasResponseFormat := false } s

/-- Consume the next scripted provider reply (one chat-completion call).
An exhausted script is a provider failure surfacing as `INTERNAL_ERROR`. -/
def popModelReply : M RawAIReply := fun s =>
  match s.script with
  | [] => Res.err ⟨("AI Execution Error: ".data), AppErrorCode.internalError⟩ s
  | r :: rest => Res.ok r (logEff Eff.modelCall { s with script := rest })

/-- Model of `executeAICall`: dispatch on the configured mode — streaming when an
`onToken` callback is present (falling back to the default path when a
response format is also configured), the default path otherwise. -/
def executeAICallM (env : Env) (ec : ExecConfigM) : M AIExecutionResult := fun s =>
  match popModelReply s with
  | Res.err e s1 => Res.err e s1
  | Res.ok raw s1 =>
    if ec.hasOnToken = true ∧ ec.hasResponseFormat = false then
      Res.ok (executeStreamingAICallP env raw) s1
    else
      Res.ok (executeDefaultAICallP raw) s1

/-- Model of `handleToolCall` (ai.utils.ts, lines 340-363): resolve the tool, parse
and validate the arguments, execute; the surrounding catch converts ANY
thrown error — including the `NOT_FOUND` of `getTool` — into a tool-response
message whose content is the serialised `{ error: message }` payload. -/
def handleToolCallM (env : Env) (tools : List ToolM) (tc : ToolCall) : M ChatMsg := fun s =>
  match getToolE tc.name tools with
  | Except.error e =>
    Res.ok { role := ChatRole.tool, content := errorPayload e.msg, toolCallId := some tc.id } s
  | Except.ok tool =>
    match parseToolArgumentsE env tc.arguments with
    | Except.error e =>
      Res.ok { role := ChatRole.tool, content := errorPayload e.msg, toolCallId := some tc.id } s
    | Except.ok args =>
      match tool.validate args with
      | Except.error e =>
        Res.ok { role := ChatRole.tool, content := errorPayload e.msg, toolCallId := some tc.id } s
      | Except.ok v =>
        let s1 := logEff Eff.toolExec s
        match tool.exec v with
        | Except.error e =>
          Res.ok { role := ChatRole.tool, content := errorPayload e.msg
                   toolCallId := some tc.id } s1
        | Except.ok result =>
          Res.ok { role := ChatRole.tool, content := toolResultContent result
                   toolCallId := some tc.id } s1

/-- JS truthiness of a parsed JSON value. -/
def jsonTruthy : Json → Bool
  | Json.null => false
  | Json.bool b => b
  | Json.num n => decide (n ≠ 0)
  | Json.str s => decide (s ≠ [])
  | Json.arr _ => true
  | Json.obj _ => true

/-- Property access on a parsed JSON value (`undefined` elsewhere). -/
def lookupField (j : Json) (k : List Char) : Option Json :=
  match j with
  | Json.obj fs => (fs.find? (fun f => decide (f.1 = k))).map (fun f => f.2)
  | _ => none

/-- Truthiness of a property (`content.error` style access). -/
def fieldTruthy (j : Json) (k : List Char) : Bool :=
  match lookupField j k with
  | some v => jsonTruthy v
  | none => false

/-- One entity field of `extractEntitiesFromToolResponse`: a truthy value is
normalised to an array. -/
def normalizeEntityField (j : Json) (k : List Char) : List Json :=
  match lookupField j k with
  | some v => if jsonTruthy v then (match v with | Json.arr xs => xs | _ => [v]) else []
  | none => []

/-- Model of `extractEntitiesFromToolResponse` (ai.utils.ts, lines 515-548): parse the
tool response content; when it parses, is truthy and carries no truthy
`error` field, collect the three entity fields; otherwise everything is
empty (parse failures are swallowed). -/
def extractEntitiesFromToolResponse (env : Env) (content : List Char) : EntityChanges :=
  match env.jsonParse content with
  | none => ⟨[], [], []⟩
  | some j =>
    if jsonTruthy j = true ∧ fieldTruthy j ("error".data) = false then
      ⟨normalizeEntityField j ("created".data),
       normalizeEntityField j ("updated".data),
       normalizeEntityField j ("deleted".data)⟩
    else ⟨[], [], []⟩

/-- Model of `processToolCallWithEntities`, mapped over one round's tool calls in
order (the `Promise.all` preserves the order of the originating list). -/
def handleCallsSeq (env : Env) (tools : List ToolM) :
    List ToolCall → M (List (ChatMsg × EntityChanges))
  | [] => fun s => Res.ok [] s
  | tc :: rest => fun s =>
    match handleToolCallM env tools tc s with
    | Res.err e s1 => Res.err e s1
    | Res.ok msg s1 =>
      let ent := extractEntitiesFromToolResponse env msg.content
      match handleCallsSeq env tools rest s1 with
      | Res.err e s2 => Res.err e s2
      | Res.ok l s2 => Res.ok ((msg, ent) :: l) s2

/-- Accumulate one round's entity changes (the `for`-loop pushes). -/
def accumulateEnt (acc : EntityChanges) (results : List (ChatMsg × EntityChanges)) :
    EntityChanges :=
  results.foldl
    (fun a r => ⟨a.created ++ r.2.created, a.updated ++ r.2.updated, a.deleted ++ r.2.deleted⟩)
    acc

/-- The `while (aiResult.toolCalls ...)` loop of `processToolCalls`.  Each
iteration consumes at least one scripted provider reply, so running the loop
with the script length as fuel is exact: the fuel can only run out after the
script itself is exhausted, which already errors inside the iteration. -/
def tcLoop (env : Env) (ec : ExecConfigM) (tools : List ToolM) :
    Nat → AIExecutionResult → List ChatMsg → EntityChanges →
    M (AIExecutionResult × EntityChanges)
  | fuel, aiR, msgs, acc => fun s =>
    match aiR.toolCalls with
    | none => Res.ok (aiR, acc) s
    | some [] => Res.ok (aiR, acc) s
    | some (tc :: tcs) =>
      match fuel with
      | 0 => Res.err ⟨("Error processing tool calls batch: ".data), AppErrorCode.internalError⟩ s
      | fuel' + 1 =>
        match handleCallsSeq env tools (tc :: tcs) s with
        | Res.err e s1 => Res.err e s1
        | Res.ok results s1 =>
          let acc' := accumulateEnt acc results
          let msgs1 := msgs ++ results.map (fun r => r.1)
          match executeAICallM env { ec with messages := msgs1 } s1 with
          | Res.err e s2 => Res.err e s2
          | Res.ok aiR' s2 =>
            let msgs2 := msgs1 ++ [{ role := ChatRole.assistant, content := aiR'.message
                                     toolCalls := aiR'.toolCalls }]
            tcLoop env ec tools fuel' aiR' msgs2 acc' s2

/-- Model of `processToolCalls`: run the model, resolve tool-call rounds until a reply
carries none, then best-effort update the thread's objectives (a failure is
logged, never thrown), and return the final text with the accumulated entity
changes. -/
def processToolCallsM (env : Env) (ec : ExecConfigM) (tools : List ToolM)
    (th : Thread) : M AssistantResponseM := fun s =>
  match executeAICallM env ec s with
  | Res.err e s1 => Res.err e s1
  | Res.ok aiR s1 =>
    let msgs0 := ec.messages ++ [{ role := ChatRole.assistant, content := aiR.message
                                   toolCalls := aiR.toolCalls }]
    match tcLoop env ec tools s1.script.length aiR msgs0 ⟨[], [], []⟩ s1 with
    | Res.err e s2 => Res.err e s2
    | Res.ok (finalR, acc) s2 =>
      let s3 :=
        if finalR.userObjectives ≠ [] then
          match updateThreadM env th.id finalR.userObjectives s2 with
          | Res.ok _ t => t
          | Res.err _ t => t
        else s2
      Res.ok { message := finalR.message, threadId := th.id
               created := acc.created, updated := acc.updated, deleted := acc.deleted } s3

/-- Model of `Assistant.processRequest`: with tools configured, delegate to the
resolution loop; otherwise invoke the model once and persist the reply as a
single fragment (chunk index 0) embedded from the full text at the next order
index.  The update/embedding/index fan-out is sequentialised; the objectives
update starts first but its failure is only observed at the trailing `await`,
after the fragment insert — exactly the source's `await threadUpdatePromise`
placement. -/
def processRequestM (env : Env) (cfg : AssistantConfigM) (ec : ExecConfigM)
    (th : Thread) : M AssistantResponseM := fun s =>
  match cfg.tools with
  | _ :: _ => processToolCallsM env ec cfg.tools th s
  | [] =>
    match executeAICallM env ec s with
    | Res.err e s1 => Res.err e s1
    | Res.ok aiR s1 =>
      let updOut : Option AppError × AState :=
        if aiR.userObjectives ≠ [] then
          match updateThreadM env th.id aiR.userObjectives s1 with
          | Res.ok _ t => (none, t)
          | Res.err e t => (some e, t)
        else (none, s1)
      match generateEmbeddingsM env aiR.message updOut.2 with
      | Res.err e t => Res.err e t
      | Res.ok emb s2 =>
        match getNextOrderIndexM th.id s2 with
        | Res.err e t => Res.err e t
        | Res.ok oi s3 =>
          match createMessageM th.id oi 0 ChatRole.assistant aiR.message emb s3 with
          | Res.err e t => Res.err e t
          | Res.ok _ s4 =>
            match updOut.1 with
            | some e => Res.err e s4
            | none =>
              Res.ok { message := aiR.message, threadId := th.id
                       created := (aiR.created.getD [])
                       updated := (aiR.updated.getD [])
                       deleted := (aiR.deleted.getD []) } s4

/-- Model of `Assistant.updateMessages` row creation: one insert per embedding chunk,
chunk indices following list position. -/
def createChunkMsgs (tid : List Char) (role : ChatRole) (oi : Nat) :
    List (List Char × List Char) → Nat → M Unit
  | [], _ => fun s => Res.ok () s
  | c :: cs, i => fun s =>
    match createMessageM tid oi i role c.1 c.2 s with
    | Res.err e t => Res.err e t
    | Res.ok _ s1 => createChunkMsgs tid role oi cs (i + 1) s1

/-- Model of `Assistant.updateMessages`: chunk and embed the text, then insert one
fragment per chunk at the given order index. -/
def updateMessagesM (env : Env) (text tid : List Char) (role : ChatRole) (oi : Nat) :
    M Unit := fun s =>
  match generateEmbeddingChunksM env text s with
  | Res.err e t => Res.err e t
  | Res.ok chunks s1 => createChunkMsgs tid role oi chunks 0 s1

/-- Model of `Assistant.postProcess`: read the next order index once, then persist the
chunked user message at that index and the chunked assistant reply at the
next (the `Promise.all` pair, sequentialised in list order). -/
def postProcessM (env : Env) (req : AssistantRequestM) (th : Thread)
    (resp : AssistantResponseM) : M Unit := fun s =>
  match getNextOrderIndexM th.id s with
  | Res.err e t => Res.err e t
  | Res.ok oi s1 =>
    match updateMessagesM env req.message th.id ChatRole.user oi s1 with
    | Res.err e t => Res.err e t
    | Res.ok _ s2 => updateMessagesM env resp.message th.id ChatRole.assistant (oi + 1) s2

/-- Model of `Assistant.thread`: validate, resolve the thread, prepare the context,
process, post-process, return the response.  (Every catch block on this path
rethrows `AppError`s unchanged, so the wrappers are identities here.) -/
def assistantThread (env : Env) (cfg : AssistantConfigM) (req : AssistantRequestM) :
    M AssistantResponseM := fun s =>
  match validateRequestE cfg req with
  | Except.error e => Res.err e s
  | Except.ok _ =>
    match getThreadM cfg req s with
    | Res.err e s1 => Res.err e s1
    | Res.ok th s1 =>
      match prepareProcessM env cfg req th s1 with
      | Res.err e s2 => Res.err e s2
      | Res.ok ec s2 =>
        match processRequestM env cfg ec th s2 with
        | Res.err e s3 => Res.err e s3
        | Res.ok resp s3 =>
          match postProcessM env req th resp s3 with
          | Res.err e s4 => Res.err e s4
          | Res.ok _ s4 => Res.ok resp s4

/-
Descriptions used by the statements and proofs below (no further source code
is embedded past this point).
-/

/-- The rows `Assistant.updateMessages` inserts for a chunk list: chunk
indices follow list position from `i`, row ids follow the store counter. -/
def mkChunkFrags (tid : List Char) (role : ChatRole) (oi : Nat) :
    List (List Char × List Char) → Nat → Nat → List MessageEmbedding
  | [], _, _ => []
  | c :: cs, i, idStart =>
    ⟨idStart, tid, oi, i, role, c.1, c.2⟩ :: mkChunkFrags tid role oi cs (i + 1) (idStart + 1)

/-- The chunk list `generateEmbeddingChunks` produces for a text. -/
def embChunks (env : Env) (text : List Char) : List (List Char × List Char) :=
  (env.splitChunks text).map (fun p => (p, env.embed p))

/-- The executor result `executeAICall` produces for a raw reply under the
configured mode (the dispatch of `executeAICallM`). -/
def modeResult (env : Env) (ec : ExecConfigM) (raw : RawAIReply) : AIExecutionResult :=
  if ec.hasOnToken = true ∧ ec.hasResponseFormat = false then executeStreamingAICallP env raw
  else executeDefaultAICallP raw

/-- The assistant-reply fragment the no-tools process step persists. -/
def processFrag (env : Env) (th : Thread) (content : List Char) (st : Store) :
    MessageEmbedding :=
  ⟨st.msgCounter, th.id, nextOrderIndexPure st th.id, 0, ChatRole.assistant, content,
    env.embed content⟩

/-- No occurrence of `sep` starts inside the `a` part of `a ++ tail`. -/
def NoStartIn (sep a tail : List Char) : Prop :=
  ∀ i, i < a.length → leadsWith sep ((a ++ tail).drop i) = false

/-- Some position of the overlap of `sep` and `suffix` disagrees (then no
continuation of `suffix` can begin with `sep`). -/
def anyMismatch (sep suffix : List Char) : Bool :=
  (sep.zip suffix).any (fun p => decide (p.1 ≠ p.2))

/-- Every position of the literal `lit` refutes a match of `sep` within the
literal's own characters, whatever follows. -/
def litBlocks (sep lit : List Char) : Bool :=
  (List.range lit.length).all (fun i => anyMismatch sep (lit.drop i))

/-- A text of the family quantified over by the extraction claim: two lines
matching the `USER_OBJECTIVE:` marker followed by a terminal `CREATED:`
block. -/
def c9Content (t1 t2 arrText : List Char) : List Char :=
  (("USER_OBJECTIVE: ".data) ++ t1) ++ '\n' ::
    ((("USER_OBJECTIVE: ".data) ++ t2) ++ '\n' :: (("CREATED:".data) ++ arrText))

/-
Concrete fixtures: a deterministic environment and small configurations used
to evaluate the embedding at specific inputs.
-/

/-- A concrete environment: the parser understands exactly the array literal
used below, the embedder is constant, the splitter keeps texts whole, the
similarity RPC returns nothing, thread updates succeed. -/
def envT : Env :=
  { jsonParse := fun s =>
      if s = ("[1, 2]".data) then some (Json.arr [Json.num 1, Json.num 2])
      else if s = ("{}".data) then some (Json.obj [])
      else none
    embed := fun _ => ("E".data)
    splitChunks := fun t => [t]
    rpcMatch := fun _ _ => []
    updateThreadErr := none }

/-- The same environment with a failing thread-update store write. -/
def envTFail : Env := { envT with updateThreadErr := some ("boom".data) }

/-- A tool-free assistant configuration. -/
def cfgT : AssistantConfigM :=
  { title := ("T".data), systemMessage := ("SYS".data), tools := []
    contextOk := fun _ => true, hasOnToken := false }

/-- A tool that accepts any arguments and returns a string. -/
def toolT : ToolM :=
  { name := ("get_weather".data)
    validate := fun j => Except.ok j
    exec := fun _ => Except.ok (Json.str ("sunny".data)) }

/-- The same configuration with one tool registered. -/
def cfgToolsT : AssistantConfigM := { cfgT with tools := [toolT] }

/-- A tool whose execution always fails. -/
def toolFailT : ToolM :=
  { name := ("get_weather".data)
    validate := fun j => Except.ok j
    exec := fun _ => Except.error ⟨("boom2".data), AppErrorCode.internalError⟩ }

/-- A request supplying no thread id, so a new thread is created. -/
def reqT : AssistantRequestM :=
  { message := ("hello".data), userId := ("u1".data)
    threadId := none, context := Json.null }

/-- Fixture: `reqT` but supplying a thread id that resolves to no record. -/
def reqMissingT : AssistantRequestM :=
  { reqT with threadId := some ("zzz".data) }

/-- An empty store with a one-reply script. -/
def stateT : AState :=
  { store := { threads := [], msgs := [], threadCounter := 0, msgCounter := 0 }
    script := [{ content := ("reply".data), toolCalls := none }]
    trace := [] }

/-- Fixture: `stateT` with a script whose single reply carries an objective line. -/
def stateObjT : AState :=
  { stateT with script := [{ content := ("USER_OBJECTIVE: x".data), toolCalls := none }] }

/-- The thread `getThread` creates for `reqT` against `stateT`. -/
def thT : Thread := ⟨freshTid stateT.store, reqT.userId, cfgT.title, []⟩

/-- Fixture: `stateT` right after that thread insert. -/
def stateTcreated : AState :=
  { stateT with
    store := { stateT.store with
      threads := stateT.store.threads ++ [thT]
      threadCounter := stateT.store.threadCounter + 1 }
    trace := stateT.trace ++ [Eff.dbWrite] }

/-- The persisted rows of a successful run (`none` when the run failed). -/
def runMsgs (env : Env) (cfg : AssistantConfigM) (req : AssistantRequestM) (s : AState) :
    Option (List MessageEmbedding) :=
  match assistantThread env cfg req s with
  | Res.ok _ sF => some sF.store.msgs
  | Res.err _ _ => none

/-- The error code of a failed run (`none` when the run succeeded). -/
def runErrCode (env : Env) (cfg : AssistantConfigM) (req : AssistantRequestM) (s : AState) :
    Option AppErrorCode :=
  match assistantThread env cfg req s with
  | Res.ok _ _ => none
  | Res.err e _ => some e.code

/-
Lemmas about the character-list utilities.
-/

theorem leadsWith_append_self (s t : List Char) : leadsWith s (s ++ t) = true := by
  induction s with
  | nil => rfl
  | cons a as ih => simp [leadsWith, ih]

theorem splitAtFirst_self_append {sep : List Char} (hsep : sep ≠ []) (v : List Char) :
    splitAtFirst sep (sep ++ v) = some ([], v) := by
  cases sep with
  | nil => exact absurd rfl hsep
  | cons a as =>
    have hcond : leadsWith (a :: as) (a :: (as ++ v)) = true := by
      simpa using leadsWith_append_self (a :: as) v
    show splitAtFirst (a :: as) (a :: (as ++ v)) = some ([], v)
    rw [splitAtFirst, if_pos ⟨hcond, by simp⟩]
    have hd : (a :: (as ++ v)).drop (a :: as).length = v := by
      simpa using List.drop_left (a :: as) v
    rw [hd]

theorem splitAtFirst_eq_none {c0 : Char} {s' w : List Char} (h : ∀ c ∈ w, c ≠ c0) :
    splitAtFirst (c0 :: s') w = none := by
  induction w with
  | nil => rfl
  | cons c cs ih =>
    have hc : c0 ≠ c := Ne.symm (h c (List.mem_cons_self c cs))
    have hlw : leadsWith (c0 :: s') (c :: cs) = false := by
      simp [leadsWith, hc]
    rw [splitAtFirst, if_neg (by simp [hlw])]
    rw [ih (fun x hx => h x (List.mem_cons_of_mem c hx))]

theorem noStartIn_append {sep x y tail : List Char}
    (hx : NoStartIn sep x (y ++ tail)) (hy : NoStartIn sep y tail) :
    NoStartIn sep (x ++ y) tail := by
  intro i hi
  rcases Nat.lt_or_ge i x.length with h | h
  · have hx' := hx i h
    rwa [List.append_assoc]
  · rw [List.length_append] at hi
    have hi' : i - x.length < y.length := by omega
    have hy' := hy (i - x.length) hi'
    rw [List.append_assoc, List.drop_append_eq_append_drop,
      List.drop_eq_nil_of_le h, List.nil_append]
    exact hy'

theorem noStartIn_of_chars {c0 : Char} {s' w tail : List Char}
    (h : ∀ c ∈ w, c ≠ c0) : NoStartIn (c0 :: s') w tail := by
  induction w with
  | nil => intro i hi; simp at hi
  | cons c cs ih =>
    intro i hi
    cases i with
    | zero =>
      have hc : c0 ≠ c := Ne.symm (h c (List.mem_cons_self c cs))
      simp [leadsWith, hc]
    | succ i' =>
      have := ih (fun x hx => h x (List.mem_cons_of_mem c hx)) i' (by simpa using hi)
      simpa using this

theorem leadsWith_eq_false_of_anyMismatch {sep suffix tail : List Char}
    (h : anyMismatch sep suffix = true) : leadsWith sep (suffix ++ tail) = false := by
  induction sep generalizing suffix with
  | nil => simp [anyMismatch] at h
  | cons a as ih =>
    cases suffix with
    | nil => simp [anyMismatch] at h
    | cons b bs =>
      simp only [anyMismatch, List.zip_cons_cons, List.any_cons] at h
      cases (Bool.or_eq_true _ _).mp h with
      | inl h1 =>
        have hab : a ≠ b := of_decide_eq_true h1
        simp [leadsWith, hab]
      | inr h2 =>
        have := @ih bs h2
        simp [leadsWith, this]

theorem noStartIn_of_litBlocks {sep lit tail : List Char}
    (h : litBlocks sep lit = true) : NoStartIn sep lit tail := by
  intro i hi
  have hmm : anyMismatch sep (lit.drop i) = true := by
    have := List.all_eq_true.mp h i (List.mem_range.mpr hi)
    simpa using this
  have hsplit : (lit ++ tail).drop i = lit.drop i ++ tail := by
    rw [List.drop_append_eq_append_drop]
    have hz : i - lit.length = 0 := by omega
    rw [hz, List.drop_zero]
  rw [hsplit]
  exact leadsWith_eq_false_of_anyMismatch hmm

theorem splitAtFirst_append_of_noStart {sep a v : List Char} (hsep : sep ≠ [])
    (h : NoStartIn sep a (sep ++ v)) :
    splitAtFirst sep (a ++ (sep ++ v)) = some (a, v) := by
  induction a with
  | nil => simpa using splitAtFirst_self_append hsep v
  | cons c cs ih =>
    have h0 := h 0 (by simp)
    rw [List.drop_zero] at h0
    show splitAtFirst sep (c :: (cs ++ (sep ++ v))) = some (c :: cs, v)
    rw [splitAtFirst, if_neg (by rw [List.cons_append] at h0; simp [h0])]
    have ihh : NoStartIn sep cs (sep ++ v) := by
      intro i hi
      have := h (i + 1) (by simpa using Nat.succ_lt_succ hi)
      simpa using this
    rw [ih ihh]

theorem splitLines_of_not_mem {w : List Char} (h : '\n' ∉ w) :
    splitLines w = [w] := by
  induction w with
  | nil => rfl
  | cons c cs ih =>
    have hc : c ≠ '\n' := fun he => h (by simp [he])
    have hcs : '\n' ∉ cs := fun hm => h (List.mem_cons_of_mem c hm)
    rw [splitLines, if_neg hc, ih hcs]

theorem splitLines_append_cons {a b : List Char} (h : '\n' ∉ a) :
    splitLines (a ++ '\n' :: b) = a :: splitLines b := by
  induction a with
  | nil =>
    show splitLines ('\n' :: b) = [] :: splitLines b
    rw [splitLines, if_pos rfl]
  | cons c cs ih =>
    have hc : c ≠ '\n' := fun he => h (by simp [he])
    have hcs : '\n' ∉ cs := fun hm => h (List.mem_cons_of_mem c hm)
    show splitLines (c :: (cs ++ '\n' :: b)) = (c :: cs) :: splitLines b
    rw [splitLines, if_neg hc, ih hcs]

theorem wtrim_cons_ws {c : Char} (hc : isWsChar c = true) (t : List Char) :
    wtrim (c :: t) = wtrim t := by
  simp [wtrim, trimLeft, List.dropWhile_cons, hc]

/-
Lemmas about `maxNat` and the next order index.
-/

theorem le_maxNat {l : List Nat} {x : Nat} (h : x ∈ l) : x ≤ maxNat l := by
  induction l with
  | nil => cases h
  | cons a as ih =>
    rcases List.mem_cons.mp h with rfl | h'
    · exact Nat.le_max_left _ _
    · exact Nat.le_trans (ih h') (Nat.le_max_right _ _)

theorem maxNat_mem {l : List Nat} (h : l ≠ []) : maxNat l ∈ l := by
  induction l with
  | nil => exact absurd rfl h
  | cons a as ih =>
    cases as with
    | nil => simp [maxNat]
    | cons b bs =>
      rcases Nat.le_total a (maxNat (b :: bs)) with hle | hle
      · have he : maxNat (a :: b :: bs) = maxNat (b :: bs) := by
          show max a (maxNat (b :: bs)) = maxNat (b :: bs)
          exact Nat.max_eq_right hle
        rw [he]
        exact List.mem_cons_of_mem _ (ih (by simp))
      · have he : maxNat (a :: b :: bs) = a := by
          show max a (maxNat (b :: bs)) = a
          exact Nat.max_eq_left hle
        simp [he]

theorem maxNat_append_singleton (l : List Nat) (x : Nat) :
    maxNat (l ++ [x]) = max (maxNat l) x := by
  induction l with
  | nil => simp [maxNat]
  | cons a as ih =>
    show max a (maxNat (as ++ [x])) = max (max a (maxNat as)) x
    rw [ih, Nat.max_assoc]

theorem nextOrderIndexPure_of_nil {st : Store} {tid : List Char}
    (h : threadOrderIndexes st tid = []) : nextOrderIndexPure st tid = 1 := by
  unfold nextOrderIndexPure orderIndexRows
  rw [h]

theorem nextOrderIndexPure_of_cons {st : Store} {tid : List Char} {a : Nat} {as : List Nat}
    (h : threadOrderIndexes st tid = a :: as) :
    nextOrderIndexPure st tid = maxNat (a :: as) + 1 := by
  unfold nextOrderIndexPure orderIndexRows
  rw [h]

theorem maxNat_lt_nextOrder (st : Store) (tid : List Char) :
    maxNat (threadOrderIndexes st tid) < nextOrderIndexPure st tid := by
  cases h : threadOrderIndexes st tid with
  | nil => rw [nextOrderIndexPure_of_nil h]; simp [maxNat]
  | cons a as => rw [nextOrderIndexPure_of_cons h]; omega

theorem nextOrder_after_append {st st2 : Store} {tid : List Char} {frag : MessageEmbedding}
    (hm : st2.msgs = st.msgs ++ [frag]) (hft : frag.threadId = tid)
    (hoi : frag.orderIndex = nextOrderIndexPure st tid) :
    nextOrderIndexPure st2 tid = nextOrderIndexPure st tid + 1 := by
  have hidx : threadOrderIndexes st2 tid
      = threadOrderIndexes st tid ++ [frag.orderIndex] := by
    unfold threadOrderIndexes
    rw [hm, List.filter_append]
    simp [hft]
  cases h : threadOrderIndexes st tid with
  | nil =>
    have h1 := nextOrderIndexPure_of_nil h
    have h2 : threadOrderIndexes st2 tid
        = [frag.orderIndex] := by rw [hidx, h]; rfl
    rw [nextOrderIndexPure_of_cons h2, h1, hoi, h1]
    simp [maxNat]
  | cons a as =>
    have h2 : threadOrderIndexes st2 tid
        = a :: (as ++ [frag.orderIndex]) := by rw [hidx, h]; rfl
    rw [nextOrderIndexPure_of_cons h2]
    have hle : maxNat (a :: as) ≤ frag.orderIndex := by
      rw [hoi, nextOrderIndexPure_of_cons h]
      omega
    have hmx : maxNat (a :: (as ++ [frag.orderIndex])) = frag.orderIndex := by
      have hx := maxNat_append_singleton (a :: as) frag.orderIndex
      calc maxNat (a :: (as ++ [frag.orderIndex]))
          = maxNat ((a :: as) ++ [frag.orderIndex]) := rfl
        _ = max (maxNat (a :: as)) frag.orderIndex := hx
        _ = frag.orderIndex := Nat.max_eq_right hle
    rw [hmx, hoi]

/-
Run lemmas: closed forms for each pipeline stage.
-/

theorem modeResult_message (env : Env) (ec : ExecConfigM) (r : RawAIReply) :
    (modeResult env ec r).message = r.content := by
  unfold modeResult
  split <;> rfl

theorem modeResult_objectives (env : Env) (ec : ExecConfigM) (r : RawAIReply) :
    (modeResult env ec r).userObjectives = extractUserObjectives r.content := by
  unfold modeResult
  split <;> rfl

theorem executeAICallM_run (env : Env) (ec : ExecConfigM) {r : RawAIReply}
    {rest : List RawAIReply} {s : AState} (h : s.script = r :: rest) :
    executeAICallM env ec s = Res.ok (modeResult env ec r)
      { s with script := rest, trace := s.trace ++ [Eff.modelCall] } := by
  simp only [executeAICallM, popModelReply, h, logEff, modeResult]
  split <;> rfl

theorem prepareProcessM_run (env : Env) (cfg : AssistantConfigM) (req : AssistantRequestM)
    (th : Thread) (s : AState) (hmsg : req.message ≠ []) :
    prepareProcessM env cfg req th s = Res.ok
      { messages := { role := ChatRole.system, content := systemContent cfg th } ::
          ((List.insertionSort ordLe (env.rpcMatch th.id (env.embed req.message))).map
              fragToChatMsg
            ++ [{ role := ChatRole.user, content := req.message }])
        hasOnToken := cfg.hasOnToken
        hasResponseFormat := false }
      { s with trace := s.trace ++ [Eff.embedCall, Eff.dbRead] } := by
  simp only [prepareProcessM, findSimilarMessagesM, logEff, if_pos hmsg]
  simp [List.append_assoc]

theorem createChunkMsgs_run (tid : List Char) (role : ChatRole) (oi : Nat) :
    ∀ (chunks : List (List Char × List Char)) (i : Nat) (s : AState),
    createChunkMsgs tid role oi chunks i s = Res.ok ()
      { s with
        store := { s.store with
          msgs := s.store.msgs ++ mkChunkFrags tid role oi chunks i s.store.msgCounter
          msgCounter := s.store.msgCounter + chunks.length }
        trace := s.trace ++ List.replicate chunks.length Eff.dbWrite } := by
  intro chunks
  induction chunks with
  | nil => intro i s; simp [createChunkMsgs, mkChunkFrags]
  | cons c cs ih =>
    intro i s
    rw [createChunkMsgs]
    simp only [createMessageM, logEff]
    rw [ih]
    simp [mkChunkFrags, List.append_assoc, List.replicate_succ]
    omega

theorem postProcessM_run (env : Env) (req : AssistantRequestM) (th : Thread)
    (resp : AssistantResponseM) (s : AState) :
    postProcessM env req th resp s = Res.ok ()
      { s with
        store := { s.store with
          msgs := s.store.msgs
            ++ (mkChunkFrags th.id ChatRole.user (nextOrderIndexPure s.store th.id)
                  (embChunks env req.message) 0 s.store.msgCounter
              ++ mkChunkFrags th.id ChatRole.assistant (nextOrderIndexPure s.store th.id + 1)
                  (embChunks env resp.message) 0
                  (s.store.msgCounter + (embChunks env req.message).length))
          msgCounter := s.store.msgCounter + (embChunks env req.message).length
            + (embChunks env resp.message).length }
        trace := s.trace ++ [Eff.dbRead]
          ++ List.replicate (embChunks env req.message).length Eff.embedCall
          ++ List.replicate (embChunks env req.message).length Eff.dbWrite
          ++ List.replicate (embChunks env resp.message).length Eff.embedCall
          ++ List.replicate (embChunks env resp.message).length Eff.dbWrite } := by
  simp only [postProcessM, getNextOrderIndexM, updateMessagesM, generateEmbeddingChunksM,
    logEff]
  rw [createChunkMsgs_run]
  dsimp only
  rw [createChunkMsgs_run]
  simp [embChunks, List.append_assoc]

theorem getThreadM_resolves (cfg : AssistantConfigM) (req : AssistantRequestM) (s : AState)
    {tid : List Char} {th : Thread} (h : req.threadId = some tid) (hne : tid ≠ [])
    (hr : threadRow s.store tid = some th) :
    getThreadM cfg req s = Res.ok th { s with trace := s.trace ++ [Eff.dbRead] } := by
  simp [getThreadM, h, hne, readThreadE, hr, logEff]

theorem getThreadM_unauthorized (cfg : AssistantConfigM) (req : AssistantRequestM) (s : AState)
    {tid : List Char} (h : req.threadId = some tid) (hne : tid ≠ [])
    (hr : threadRow s.store tid = none) :
    getThreadM cfg req s
      = Res.err ⟨("Get Thread Error: ".data), AppErrorCode.unauthorized⟩
          { s with trace := s.trace ++ [Eff.dbRead] } := by
  simp [getThreadM, h, hne, readThreadE, hr, logEff]

theorem getThreadM_creates (cfg : AssistantConfigM) (req : AssistantRequestM) (s : AState)
    (h : req.threadId = none) :
    getThreadM cfg req s = Res.ok ⟨freshTid s.store, req.userId, cfg.title, []⟩
      { s with
        store := { s.store with
          threads := s.store.threads ++ [⟨freshTid s.store, req.userId, cfg.title, []⟩]
          threadCounter := s.store.threadCounter + 1 }
        trace := s.trace ++ [Eff.dbWrite] } := by
  simp [getThreadM, h, createThreadM, logEff]

theorem processRequestM_noTools_run (env : Env) (cfg : AssistantConfigM) (ec : ExecConfigM)
    (th : Thread) {r : RawAIReply} {rest : List RawAIReply} {s : AState}
    (htools : cfg.tools = []) (hscript : s.script = r :: rest)
    (hobj : extractUserObjectives r.content = []) :
    processRequestM env cfg ec th s = Res.ok
      { message := r.content, threadId := th.id
        created := ((modeResult env ec r).created.getD [])
        updated := ((modeResult env ec r).updated.getD [])
        deleted := ((modeResult env ec r).deleted.getD []) }
      { s with
        store := { s.store with
          msgs := s.store.msgs ++ [processFrag env th r.content s.store]
          msgCounter := s.store.msgCounter + 1 }
        script := rest
        trace := s.trace ++ [Eff.modelCall, Eff.embedCall, Eff.dbRead, Eff.dbWrite] } := by
  simp only [processRequestM, htools]
  rw [executeAICallM_run env ec hscript]
  try dsimp only
  rw [if_neg (by rw [modeResult_objectives, hobj]; simp)]
  simp only [generateEmbeddingsM, getNextOrderIndexM, createMessageM, logEff]
  try dsimp only
  rw [modeResult_message]
  simp [processFrag, List.append_assoc]

/-- Closed form of a complete no-tools turn after thread resolution: the
validated request runs prepare, process and post-process; the store receives
the single process-step fragment and then the two chunked post-process
groups. -/
theorem noToolsThreadRun (env : Env) (cfg : AssistantConfigM) (req : AssistantRequestM)
    {s : AState} {th : Thread} {s1 : AState} {r : RawAIReply}
    (hval : validateRequestE cfg req = Except.ok ())
    (hth : getThreadM cfg req s = Res.ok th s1)
    (htools : cfg.tools = [])
    (hscript : s1.script = [r])
    (hobj : extractUserObjectives r.content = [])
    (hmsg : req.message ≠ []) :
    ∃ resp sF, assistantThread env cfg req s = Res.ok resp sF ∧
      resp.message = r.content ∧ resp.threadId = th.id ∧
      sF.store.threads = s1.store.threads ∧
      sF.store.msgs = s1.store.msgs
        ++ processFrag env th r.content s1.store ::
          (mkChunkFrags th.id ChatRole.user (nextOrderIndexPure s1.store th.id + 1)
              (embChunks env req.message) 0 (s1.store.msgCounter + 1)
            ++ mkChunkFrags th.id ChatRole.assistant (nextOrderIndexPure s1.store th.id + 2)
              (embChunks env r.content) 0
              (s1.store.msgCounter + 1 + (embChunks env req.message).length)) := by
  have hec := prepareProcessM_run env cfg req th s1 hmsg
  have hpr := @processRequestM_noTools_run env cfg
    { messages := { role := ChatRole.system, content := systemContent cfg th } ::
        ((List.insertionSort ordLe (env.rpcMatch th.id (env.embed req.message))).map
            fragToChatMsg
          ++ [{ role := ChatRole.user, content := req.message }])
      hasOnToken := cfg.hasOnToken
      hasResponseFormat := false }
    th r [] { s1 with trace := s1.trace ++ [Eff.embedCall, Eff.dbRead] }
    htools (by simpa using hscript) hobj
  simp only [assistantThread, hval, hth, hec, hpr, postProcessM_run]
  refine ⟨_, _, rfl, rfl, rfl, rfl, ?_⟩
  dsimp only
  rw [show nextOrderIndexPure
      { threads := s1.store.threads
        msgs := s1.store.msgs ++ [processFrag env th r.content s1.store]
        threadCounter := s1.store.threadCounter
        msgCounter := s1.store.msgCounter + 1 } th.id
      = nextOrderIndexPure s1.store th.id + 1 from nextOrder_after_append rfl rfl rfl]
  simp [List.append_assoc]

theorem modeResult_default (env : Env) (ec : ExecConfigM) (r : RawAIReply)
    (h : ec.hasOnToken = false) : modeResult env ec r = executeDefaultAICallP r := by
  unfold modeResult
  rw [if_neg (fun hcon => by rw [h] at hcon; exact Bool.false_ne_true hcon.1)]

theorem modeResult_toolCalls_none (env : Env) (ec : ExecConfigM) {r : RawAIReply}
    (h : r.toolCalls = none) : (modeResult env ec r).toolCalls = none := by
  unfold modeResult
  split
  · simp [executeStreamingAICallP, processAIResponse, h]
  · simp [executeDefaultAICallP, h]

theorem embChunks_map_content (env : Env) (text : List Char) :
    (embChunks env text).map (fun c => c.1) = env.splitChunks text := by
  rw [embChunks, List.map_map]
  have hfun : ((fun c : List Char × List Char => c.1)
      ∘ fun p : List Char => (p, env.embed p)) = fun p => p := rfl
  rw [hfun, List.map_id']

theorem mkChunkFrags_mem {tid : List Char} {role : ChatRole} {oi : Nat} :
    ∀ {chunks : List (List Char × List Char)} {i idS : Nat} (f : MessageEmbedding),
    f ∈ mkChunkFrags tid role oi chunks i idS →
    f.role = role ∧ f.orderIndex = oi ∧ f.threadId = tid := by
  intro chunks
  induction chunks with
  | nil => intro i idS f hf; simp [mkChunkFrags] at hf
  | cons c cs ih =>
    intro i idS f hf
    rcases List.mem_cons.mp hf with rfl | h
    · exact ⟨rfl, rfl, rfl⟩
    · exact ih f h

theorem mkChunkFrags_map_content (tid : List Char) (role : ChatRole) (oi : Nat) :
    ∀ (chunks : List (List Char × List Char)) (i idS : Nat),
    (mkChunkFrags tid role oi chunks i idS).map (fun f => f.content)
      = chunks.map (fun c => c.1) := by
  intro chunks
  induction chunks with
  | nil => intro i idS; rfl
  | cons c cs ih => intro i idS; simp [mkChunkFrags, ih]

theorem mkChunkFrags_map_chunkIndex (tid : List Char) (role : ChatRole) (oi : Nat) :
    ∀ (chunks : List (List Char × List Char)) (i idS : Nat),
    (mkChunkFrags tid role oi chunks i idS).map (fun f => f.chunkIndex)
      = List.range' i chunks.length := by
  intro chunks
  induction chunks with
  | nil => intro i idS; rfl
  | cons c cs ih => intro i idS; simp [mkChunkFrags, ih, List.range'_succ]

/-
The claims.
-/

/-- Claim C6: a request whose message is the empty string fails with
`VALIDATION_ERROR`, and the state — store, script and effect trace alike —
is returned exactly as it was: no store read or write, no embedding call and
no model invocation has happened. -/
theorem c6_empty_message_rejected_without_effects (env : Env) (cfg : AssistantConfigM)
    (req : AssistantRequestM) (s : AState) (h : req.message = []) :
    assistantThread env cfg req s
      = Res.err ⟨("Invalid Assistant Request: ".data), AppErrorCode.validationError⟩ s := by
  have hv : validateRequestE cfg req
      = Except.error ⟨("Invalid Assistant Request: ".data), AppErrorCode.validationError⟩ := by
    unfold validateRequestE
    rw [if_neg (fun hcon => hcon.1 h)]
  simp [assistantThread, hv]

theorem c6_witness :
    assistantThread envT cfgT
        { message := [], userId := ("u1".data), threadId := none, context := Json.null }
        stateT
      = Res.err ⟨("Invalid Assistant Request: ".data), AppErrorCode.validationError⟩ stateT :=
  c6_empty_message_rejected_without_effects envT cfgT _ stateT rfl

/-- Claim C7: for every validated request the executor receives the history in
exactly this order — a system message first, whose content is the configured
system message with the thread's objectives appended as a bulleted list when
the thread has any; then the retrieved fragments as a permutation of the
similarity RPC's result sorted ascending by order index; and the new user
message last. -/
theorem c7_history_assembly (env : Env) (cfg : AssistantConfigM) (req : AssistantRequestM)
    (th : Thread) (s : AState) (hmsg : req.message ≠ []) :
    ∃ ec s', prepareProcessM env cfg req th s = Res.ok ec s' ∧
      (∃ sorted : List MessageEmbedding,
        ec.messages
            = { role := ChatRole.system, content := systemContent cfg th } ::
              (sorted.map fragToChatMsg ++ [{ role := ChatRole.user, content := req.message }]) ∧
        sorted.Perm (env.rpcMatch th.id (env.embed req.message)) ∧
        List.Sorted ordLe sorted) ∧
      (th.userObjectives = [] → systemContent cfg th = cfg.systemMessage) ∧
      (th.userObjectives ≠ [] → systemContent cfg th
        = cfg.systemMessage ++ (("\n\nUser Objectives:\n".data)
          ++ intercalateL ['\n'] (th.userObjectives.map (fun o => ("- ".data) ++ o)))) := by
  refine ⟨_, _, prepareProcessM_run env cfg req th s hmsg,
    ⟨_, rfl, List.perm_insertionSort ordLe _, List.sorted_insertionSort ordLe _⟩, ?_, ?_⟩
  · intro h
    simp [systemContent, h]
  · intro h
    simp [systemContent, h, objectivesSuffix]

theorem c7_witness :
    ∃ ec s', prepareProcessM envT cfgT reqT ⟨("t0".data), ("u1".data), ("T".data), []⟩ stateT
        = Res.ok ec s' ∧
      (∃ sorted : List MessageEmbedding,
        ec.messages
            = { role := ChatRole.system
                content := systemContent cfgT ⟨("t0".data), ("u1".data), ("T".data), []⟩ } ::
              (sorted.map fragToChatMsg
                ++ [{ role := ChatRole.user, content := reqT.message }]) ∧
        sorted.Perm (envT.rpcMatch ("t0".data) (envT.embed reqT.message)) ∧
        List.Sorted ordLe sorted) ∧
      (([] : List (List Char)) = [] →
        systemContent cfgT ⟨("t0".data), ("u1".data), ("T".data), []⟩ = cfgT.systemMessage) ∧
      (([] : List (List Char)) ≠ [] →
        systemContent cfgT ⟨("t0".data), ("u1".data), ("T".data), []⟩
          = cfgT.systemMessage ++ (("\n\nUser Objectives:\n".data)
            ++ intercalateL ['\n'] (([] : List (List Char)).map (fun o => ("- ".data) ++ o)))) :=
  c7_history_assembly envT cfgT reqT ⟨("t0".data), ("u1".data), ("T".data), []⟩ stateT
    (by decide)

/-- Claim C10: against a healthy store the next order index is the thread's
highest existing order index plus one when the thread has fragments and `1`
when it has none; a store read failing with any signal other than the
provider's unauthorized `PGRST116` is swallowed and also yields `1` rather
than an error, while `PGRST116` raises `UNAUTHORIZED`. -/
theorem c10_get_next_order_index :
    (∀ (st : Store) (tid : List Char) (a : Nat) (as : List Nat),
      threadOrderIndexes st tid = a :: as →
        nextOrderIndexPure st tid = maxNat (a :: as) + 1 ∧
        maxNat (a :: as) ∈ threadOrderIndexes st tid ∧
        (∀ o ∈ threadOrderIndexes st tid, o ≤ maxNat (a :: as))) ∧
    (∀ (st : Store) (tid : List Char),
      threadOrderIndexes st tid = [] → nextOrderIndexPure st tid = 1) ∧
    (∀ (st : Store) (tid : List Char),
      getNextOrderIndexFromReply (Except.ok (orderIndexRows st tid))
        = Except.ok (nextOrderIndexPure st tid)) ∧
    (∀ m : List Char,
      getNextOrderIndexFromReply (Except.error (DbErr.other m)) = Except.ok 1) ∧
    (∃ e, getNextOrderIndexFromReply (Except.error DbErr.pgrst116) = Except.error e ∧
      e.code = AppErrorCode.unauthorized) := by
  refine ⟨?_, ?_, ?_, fun m => rfl, ⟨_, rfl, rfl⟩⟩
  · intro st tid a as h
    refine ⟨nextOrderIndexPure_of_cons h, ?_, ?_⟩
    · rw [h]
      exact maxNat_mem (by simp)
    · intro o ho
      rw [h] at ho
      exact le_maxNat ho
  · intro st tid h
    exact nextOrderIndexPure_of_nil h
  · intro st tid
    unfold nextOrderIndexPure orderIndexRows
    cases threadOrderIndexes st tid with
    | nil => rfl
    | cons a as => rfl

theorem c10_witness :
    nextOrderIndexPure
        { threads := [], threadCounter := 0, msgCounter := 2
          msgs := [⟨0, ("t0".data), 1, 0, ChatRole.user, ("a".data), ("E".data)⟩,
                   ⟨1, ("t0".data), 2, 0, ChatRole.assistant, ("b".data), ("E".data)⟩] }
        ("t0".data) = 3 ∧
    getNextOrderIndexFromReply (Except.error (DbErr.other ("x".data))) = Except.ok 1 := by
  constructor
  · have h := (c10_get_next_order_index.1
      { threads := [], threadCounter := 0, msgCounter := 2
        msgs := [⟨0, ("t0".data), 1, 0, ChatRole.user, ("a".data), ("E".data)⟩,
                 ⟨1, ("t0".data), 2, 0, ChatRole.assistant, ("b".data), ("E".data)⟩] }
      ("t0".data) 1 [2] (by decide)).1
    rw [h]
    decide
  · exact c10_get_next_order_index.2.2.2.1 ("x".data)

/-- Claim C1 as stated is false: a valid request carrying a (non-empty) thread
id that resolves to no record does not fall through to thread creation —
`.single()` reports `PGRST116` for the missing row, `readThread` maps that to
a thrown UNAUTHORIZED, and the turn fails with it before any thread is
created.  Concretely: an empty store, a one-reply script, and a request
supplying the unresolvable id `"zzz"` make the turn fail with UNAUTHORIZED. -/
theorem c1_counterexample :
    runErrCode envT cfgT reqMissingT stateT = some AppErrorCode.unauthorized := by
  rfl

/-- Claim C1 (amended: a supplied thread id that resolves to no record makes
the turn fail with UNAUTHORIZED — `readThread`'s PGRST116 branch — after only
the store read; the claimed creation happens when the request supplies no
thread id: then the turn completes, a new thread owned by the requesting
user and titled from the assistant configuration is inserted, and the
response's thread id is the store-generated id of that new thread). -/
theorem c1_thread_resolution (env : Env) (cfg : AssistantConfigM) :
    (∀ (req : AssistantRequestM) (s : AState) (tid : List Char),
      validateRequestE cfg req = Except.ok () →
      req.threadId = some tid → tid ≠ [] →
      threadRow s.store tid = none →
      assistantThread env cfg req s
        = Res.err ⟨("Get Thread Error: ".data), AppErrorCode.unauthorized⟩
            { s with trace := s.trace ++ [Eff.dbRead] }) ∧
    (∀ (req : AssistantRequestM) (s : AState) (r : RawAIReply),
      validateRequestE cfg req = Except.ok () →
      req.message ≠ [] →
      req.threadId = none →
      cfg.tools = [] →
      s.script = [r] →
      extractUserObjectives r.content = [] →
      ∃ resp sF, assistantThread env cfg req s = Res.ok resp sF ∧
        resp.threadId = freshTid s.store ∧
        (⟨freshTid s.store, req.userId, cfg.title, []⟩ : Thread) ∈ sF.store.threads) := by
  constructor
  · intro req s tid hval hsup hne hrow
    have hget := getThreadM_unauthorized cfg req s hsup hne hrow
    simp only [assistantThread, hval, hget]
  · intro req s r hval hmsg hnotid htools hscript hobj
    have hth := getThreadM_creates cfg req s hnotid
    obtain ⟨resp, sF, hrun, _, hid, hthreads, _⟩ :=
      noToolsThreadRun env cfg req hval hth htools hscript hobj hmsg
    refine ⟨resp, sF, hrun, ?_, ?_⟩
    · rw [hid]
    · rw [hthreads]
      simp

theorem c1_witness :
    (assistantThread envT cfgT reqMissingT stateT
      = Res.err ⟨("Get Thread Error: ".data), AppErrorCode.unauthorized⟩
          { stateT with trace := stateT.trace ++ [Eff.dbRead] }) ∧
    (∃ resp sF, assistantThread envT cfgT reqT stateT = Res.ok resp sF ∧
      resp.threadId = freshTid stateT.store ∧
      (⟨freshTid stateT.store, reqT.userId, cfgT.title, []⟩ : Thread) ∈ sF.store.threads) :=
  ⟨(c1_thread_resolution envT cfgT).1 reqMissingT stateT ("zzz".data)
    rfl rfl (by decide) rfl,
   (c1_thread_resolution envT cfgT).2 reqT stateT
    { content := ("reply".data), toolCalls := none }
    rfl (by decide) rfl rfl rfl rfl⟩

/-- Claim C2 as stated is false: on a turn with tools configured the process step
persists nothing.  A successful tools-configured turn (one registered tool,
a reply requesting no tool calls) leaves exactly the two post-process rows in
the store — the chunked user message at order index 1 and the chunked reply
at order index 2 — and no process-step fragment, where the claim requires
three rows. -/
theorem c2_counterexample :
    runMsgs envT cfgToolsT reqT stateT
      = some [⟨0, ('t' :: Nat.toDigits 10 0), 1, 0, ChatRole.user, ("hello".data), ("E".data)⟩,
              ⟨1, ('t' :: Nat.toDigits 10 0), 2, 0, ChatRole.assistant, ("reply".data),
                ("E".data)⟩] := by
  rfl

/-- Claim C2 (amended: the duplicated persistence holds of every successful
turn **without tools configured**; with tools, the process step persists
nothing): the process step persists the reply as a single fragment with
chunk index 0, embedded from the full reply text, at the thread's next order
index; post-processing then separately persists the chunked user message at
the following order index and the chunked reply at the one after, every
chunk sharing its message's order index while carrying pairwise distinct
chunk indices. -/
theorem c2_process_and_postprocess_persistence (env : Env) (cfg : AssistantConfigM)
    (req : AssistantRequestM) {s : AState} {th : Thread} {s1 : AState} {r : RawAIReply}
    (hval : validateRequestE cfg req = Except.ok ())
    (hth : getThreadM cfg req s = Res.ok th s1)
    (htools : cfg.tools = [])
    (hscript : s1.script = [r])
    (hobj : extractUserObjectives r.content = [])
    (hmsg : req.message ≠ []) :
    ∃ resp sF uFr aFr,
      assistantThread env cfg req s = Res.ok resp sF ∧
      resp.message = r.content ∧
      sF.store.msgs = s1.store.msgs
        ++ processFrag env th r.content s1.store :: (uFr ++ aFr) ∧
      (processFrag env th r.content s1.store).chunkIndex = 0 ∧
      (processFrag env th r.content s1.store).orderIndex = nextOrderIndexPure s1.store th.id ∧
      (processFrag env th r.content s1.store).embedding = env.embed r.content ∧
      (processFrag env th r.content s1.store).content = r.content ∧
      (processFrag env th r.content s1.store).role = ChatRole.assistant ∧
      (∀ f ∈ uFr, f.role = ChatRole.user
        ∧ f.orderIndex = nextOrderIndexPure s1.store th.id + 1) ∧
      (∀ f ∈ aFr, f.role = ChatRole.assistant
        ∧ f.orderIndex = nextOrderIndexPure s1.store th.id + 2) ∧
      uFr.map (fun f => f.content) = env.splitChunks req.message ∧
      aFr.map (fun f => f.content) = env.splitChunks r.content ∧
      (uFr.map (fun f => f.chunkIndex)).Nodup ∧
      (aFr.map (fun f => f.chunkIndex)).Nodup := by
  obtain ⟨resp, sF, hrun, hm, _, _, hmsgs⟩ :=
    noToolsThreadRun env cfg req hval hth htools hscript hobj hmsg
  refine ⟨resp, sF, _, _, hrun, hm, hmsgs, rfl, rfl, rfl, rfl, rfl, ?_, ?_, ?_, ?_, ?_, ?_⟩
  · intro f hf
    have h := mkChunkFrags_mem f hf
    exact ⟨h.1, h.2.1⟩
  · intro f hf
    have h := mkChunkFrags_mem f hf
    exact ⟨h.1, h.2.1⟩
  · rw [mkChunkFrags_map_content, embChunks_map_content]
  · rw [mkChunkFrags_map_content, embChunks_map_content]
  · rw [mkChunkFrags_map_chunkIndex]
    simpa using List.nodup_range' 0 (embChunks env req.message).length
  · rw [mkChunkFrags_map_chunkIndex]
    simpa using List.nodup_range' 0 (embChunks env r.content).length

/-- Claim C3 as stated is false: an unresolved tool name is not thrown to the
caller.  The `NOT_FOUND` raised by `getTool` is caught by `handleToolCall`'s
surrounding catch, which converts it into an ordinary tool-response message
carrying a serialized error payload: at this concrete input — no registered
tools at all — the call returns `Res.ok` with such a message and never an
error. -/
theorem c3_counterexample :
    handleToolCallM envT [] ⟨("id1".data), ("get_weather".data), ("{}".data)⟩ stateT
      = Res.ok { role := ChatRole.tool
                 content := errorPayload
                   (("Tool not found: ".data) ++ ("get_weather".data) ++ (": ".data))
                 toolCallId := some ("id1".data) } stateT := by
  rfl

/-- Claim C3 (amended: failures inside a named tool's execution are contained into
a `{ error: message }` tool response, exactly as claimed; but an unresolved
tool name, though it raises `NOT_FOUND` inside `getTool`, is caught by the
same surrounding catch and likewise converted into an error tool response
rather than being thrown for that call). -/
theorem c3_tool_failure_containment :
    (∀ (env : Env) (tools : List ToolM) (tc : ToolCall) (tool : ToolM) (a v : Json)
        (e : AppError) (s : AState),
      tools.find? (fun t => decide (t.name = tc.name)) = some tool →
      env.jsonParse tc.arguments = some a →
      tool.validate a = Except.ok v →
      tool.exec v = Except.error e →
      handleToolCallM env tools tc s
        = Res.ok { role := ChatRole.tool, content := errorPayload e.msg
                   toolCallId := some tc.id } (logEff Eff.toolExec s)) ∧
    (∀ (env : Env) (tools : List ToolM) (tc : ToolCall) (s : AState),
      tools.find? (fun t => decide (t.name = tc.name)) = none →
      ∃ err, getToolE tc.name tools = Except.error err ∧
        err.code = AppErrorCode.notFound ∧
        handleToolCallM env tools tc s
          = Res.ok { role := ChatRole.tool, content := errorPayload err.msg
                     toolCallId := some tc.id } s) := by
  constructor
  · intro env tools tc tool a v e s hfind hparse hval hexec
    simp only [handleToolCallM, getToolE, hfind, parseToolArgumentsE, hparse, hval, hexec,
      logEff]
  · intro env tools tc s hfind
    refine ⟨⟨("Tool not found: ".data) ++ tc.name ++ (": ".data), AppErrorCode.notFound⟩,
      ?_, rfl, ?_⟩
    · simp only [getToolE, hfind]
    · simp only [handleToolCallM, getToolE, hfind]

theorem c3_witness :
    handleToolCallM envT [toolFailT] ⟨("id1".data), ("get_weather".data), ("{}".data)⟩ stateT
      = Res.ok { role := ChatRole.tool, content := errorPayload ("boom2".data)
                 toolCallId := some ("id1".data) } (logEff Eff.toolExec stateT) :=
  c3_tool_failure_containment.1 envT [toolFailT]
    ⟨("id1".data), ("get_weather".data), ("{}".data)⟩ toolFailT (Json.obj []) (Json.obj [])
    ⟨("boom2".data), AppErrorCode.internalError⟩ stateT rfl rfl rfl rfl

theorem processToolCallsM_no_calls_failing_update (env : Env) (ec : ExecConfigM)
    (tools : List ToolM) (th : Thread) {r : RawAIReply} {rest : List RawAIReply}
    {s : AState} {m : List Char}
    (hscript : s.script = r :: rest) (htc : r.toolCalls = none)
    (hfail : env.updateThreadErr = some m) :
    ∃ tr, processToolCallsM env ec tools th s
      = Res.ok { message := r.content, threadId := th.id
                 created := [], updated := [], deleted := [] }
          { s with script := rest, trace := tr } := by
  simp only [processToolCallsM]
  rw [executeAICallM_run env ec hscript]
  try dsimp only
  rw [tcLoop]
  rw [modeResult_toolCalls_none env ec htc]
  try dsimp only
  cases hobjs : (modeResult env ec r).userObjectives with
  | nil =>
    refine ⟨s.trace ++ [Eff.modelCall], ?_⟩
    rw [if_neg (by simp)]
    rw [modeResult_message]
  | cons o os =>
    refine ⟨(s.trace ++ [Eff.modelCall]) ++ [Eff.dbWrite], ?_⟩
    rw [if_pos (by simp)]
    simp only [updateThreadM, hfail, logEff]
    rw [modeResult_message]

/-- Claim C4 as stated is false for a turn without tools: there the objectives
update is awaited on the critical path, so its failure fails the whole turn.
At this concrete input — no tools configured, a successful reply carrying a
`USER_OBJECTIVE:` line, and a store whose thread update is rejected — the
turn does not return a response but fails with `DATABASE_ERROR`. -/
theorem c4_counterexample :
    runErrCode envTFail cfgT reqT stateObjT = some AppErrorCode.databaseError := by
  rfl

/-- Claim C4 (amended: the objectives update is best-effort only when tools are
configured — `processToolCalls` catches and merely logs its failure, and
`Assistant.thread` still returns the complete response; without tools the
same failure fails the turn, as the counterexample shows). -/
theorem c4_objectives_update_best_effort_with_tools (env : Env) (cfg : AssistantConfigM)
    (req : AssistantRequestM) {s : AState} {th : Thread} {s1 : AState} {r : RawAIReply}
    {t : ToolM} {ts : List ToolM} {m : List Char}
    (hval : validateRequestE cfg req = Except.ok ())
    (hth : getThreadM cfg req s = Res.ok th s1)
    (htools : cfg.tools = t :: ts)
    (hscript : s1.script = [r])
    (htc : r.toolCalls = none)
    (hfail : env.updateThreadErr = some m)
    (hmsg : req.message ≠ []) :
    ∃ resp sF, assistantThread env cfg req s = Res.ok resp sF ∧
      resp.message = r.content := by
  have hec := prepareProcessM_run env cfg req th s1 hmsg
  obtain ⟨tr, hptc⟩ := @processToolCallsM_no_calls_failing_update env
    { messages := { role := ChatRole.system, content := systemContent cfg th } ::
        ((List.insertionSort ordLe (env.rpcMatch th.id (env.embed req.message))).map
            fragToChatMsg
          ++ [{ role := ChatRole.user, content := req.message }])
      hasOnToken := cfg.hasOnToken
      hasResponseFormat := false }
    (t :: ts) th r [] { s1 with trace := s1.trace ++ [Eff.embedCall, Eff.dbRead] } m
    hscript htc hfail
  simp only [assistantThread, hval, hth, hec, processRequestM, htools, hptc, postProcessM_run]
  exact ⟨_, _, rfl, rfl⟩

theorem c4_witness :
    ∃ resp sF, assistantThread envTFail cfgToolsT reqT stateObjT = Res.ok resp sF ∧
      resp.message = ("USER_OBJECTIVE: x".data) :=
  @c4_objectives_update_best_effort_with_tools envTFail cfgToolsT reqT stateObjT thT
    { stateObjT with
      store := { stateObjT.store with
        threads := stateObjT.store.threads ++ [thT]
        threadCounter := stateObjT.store.threadCounter + 1 }
      trace := stateObjT.trace ++ [Eff.dbWrite] }
    { content := ("USER_OBJECTIVE: x".data), toolCalls := none }
    toolT [] ("boom".data)
    rfl (getThreadM_creates cfgToolsT reqT stateObjT rfl) rfl rfl rfl rfl (by decide)

/-- Claim C8: with a script whose first reply requests exactly one tool call and
whose second requests none, the resolution loop runs the named tool exactly
once (whether its execution succeeds or fails), invokes the model exactly
twice, terminates, and returns a response whose message is the second
invocation's text. -/
theorem c8_tool_loop_terminates (env : Env) (ec : ExecConfigM) (tools : List ToolM)
    (th : Thread) {s : AState} {r1 r2 : RawAIReply} {tc : ToolCall} {tool : ToolM}
    {a v : Json}
    (hflag : ec.hasOnToken = false)
    (hscript : s.script = [r1, r2])
    (htc1 : r1.toolCalls = some [tc])
    (htc2 : r2.toolCalls = none)
    (hfind : tools.find? (fun t => decide (t.name = tc.name)) = some tool)
    (hparse : env.jsonParse tc.arguments = some a)
    (hvalid : tool.validate a = Except.ok v)
    (hobj : extractUserObjectives r2.content = []) :
    ∃ resp sF,
      processToolCallsM env ec tools th s = Res.ok resp sF ∧
      resp.message = r2.content ∧
      sF.trace = s.trace ++ [Eff.modelCall, Eff.toolExec, Eff.modelCall] ∧
      sF.script = [] ∧
      sF.trace.count Eff.modelCall = s.trace.count Eff.modelCall + 2 ∧
      sF.trace.count Eff.toolExec = s.trace.count Eff.toolExec + 1 := by
  have hrun : ∀ er, tool.exec v = er → ∃ resp,
      processToolCallsM env ec tools th s = Res.ok resp
        { s with
          script := []
          trace := s.trace ++ [Eff.modelCall] ++ [Eff.toolExec] ++ [Eff.modelCall] } ∧
      resp.message = r2.content := by
    intro er hexec
    simp only [processToolCallsM]
    rw [executeAICallM_run env ec hscript]
    try dsimp only
    rw [tcLoop]
    rw [modeResult_default env ec r1 hflag]
    simp only [executeDefaultAICallP]
    rw [htc1]
    simp only [List.length_cons, List.length_nil, Nat.zero_add]
    try dsimp only
    simp only [handleCallsSeq, handleToolCallM, getToolE, hfind, parseToolArgumentsE, hparse,
      hvalid, hexec, logEff]
    cases er with
    | error e =>
      try dsimp only
      rw [executeAICallM_run env _ (by rfl)]
      try dsimp only
      rw [tcLoop]
      rw [modeResult_toolCalls_none env _ htc2]
      try dsimp only
      rw [if_neg (by rw [modeResult_objectives]; rw [hobj]; simp)]
      rw [modeResult_message]
      exact ⟨_, rfl, rfl⟩
    | ok j =>
      try dsimp only
      rw [executeAICallM_run env _ (by rfl)]
      try dsimp only
      rw [tcLoop]
      rw [modeResult_toolCalls_none env _ htc2]
      try dsimp only
      rw [if_neg (by rw [modeResult_objectives]; rw [hobj]; simp)]
      rw [modeResult_message]
      exact ⟨_, rfl, rfl⟩
  obtain ⟨resp, heq, hm⟩ := hrun (tool.exec v) rfl
  refine ⟨resp, _, heq, hm, by simp, rfl, ?_, ?_⟩
  · simp [List.count_append]
  · simp [List.count_append]

theorem c8_witness :
    ∃ resp sF,
      processToolCallsM envT { messages := [], hasOnToken := false, hasResponseFormat := false }
          [toolT] thT
          { store := stateT.store
            script := [{ content := ("calling".data)
                         toolCalls := some [⟨("id1".data), ("get_weather".data), ("{}".data)⟩] },
                       { content := ("done".data), toolCalls := none }]
            trace := [] }
        = Res.ok resp sF ∧
      resp.message = ("done".data) ∧
      sF.trace = [] ++ [Eff.modelCall, Eff.toolExec, Eff.modelCall] ∧
      sF.script = [] ∧
      sF.trace.count Eff.modelCall = List.count Eff.modelCall [] + 2 ∧
      sF.trace.count Eff.toolExec = List.count Eff.toolExec [] + 1 :=
  @c8_tool_loop_terminates envT { messages := [], hasOnToken := false, hasResponseFormat := false }
    [toolT] thT
    { store := stateT.store
      script := [{ content := ("calling".data)
                   toolCalls := some [⟨("id1".data), ("get_weather".data), ("{}".data)⟩] },
                 { content := ("done".data), toolCalls := none }]
      trace := [] }
    { content := ("calling".data)
      toolCalls := some [⟨("id1".data), ("get_weather".data), ("{}".data)⟩] }
    { content := ("done".data), toolCalls := none }
    ⟨("id1".data), ("get_weather".data), ("{}".data)⟩ toolT
    (Json.obj []) (Json.obj [])
    rfl rfl rfl rfl rfl rfl rfl rfl

theorem plainChar_ne_nl {c : Char} (h : plainChar c = true) : c ≠ '\n' := by
  intro he
  rw [he] at h
  revert h
  decide

theorem c9_objectives_lines (t1 t2 arrText : List Char)
    (h1 : ∀ c ∈ t1, c ≠ '\n' ∧ c ≠ 'U')
    (h2 : ∀ c ∈ t2, c ≠ '\n' ∧ c ≠ 'U')
    (h3 : ∀ c ∈ arrText, c ≠ '\n' ∧ c.toLower ≠ 'u') :
    extractUserObjectives (c9Content t1 t2 arrText) = [wtrim t1, wtrim t2] := by
  have hchars1 : '\n' ∉ ("USER_OBJECTIVE: ".data) ++ t1 := by
    intro hm
    rcases List.mem_append.mp hm with h | h
    · revert h; decide
    · exact (h1 _ h).1 rfl
  have hchars2 : '\n' ∉ ("USER_OBJECTIVE: ".data) ++ t2 := by
    intro hm
    rcases List.mem_append.mp hm with h | h
    · revert h; decide
    · exact (h2 _ h).1 rfl
  have hchars3 : '\n' ∉ ("CREATED:".data) ++ arrText := by
    intro hm
    rcases List.mem_append.mp hm with h | h
    · revert h; decide
    · exact (h3 _ h).1 rfl
  have hsplit : splitLines (c9Content t1 t2 arrText)
      = [("USER_OBJECTIVE: ".data) ++ t1, ("USER_OBJECTIVE: ".data) ++ t2,
         ("CREATED:".data) ++ arrText] := by
    unfold c9Content
    rw [splitLines_append_cons hchars1, splitLines_append_cons hchars2,
      splitLines_of_not_mem hchars3]
  have hl1 : ∀ t : List Char, (∀ c ∈ t, c ≠ '\n' ∧ c ≠ 'U') →
      lineObjective (("USER_OBJECTIVE: ".data) ++ t) = some (wtrim t) := by
    intro t _
    have hshape : ("USER_OBJECTIVE: ".data) ++ t = objectiveMarker ++ (' ' :: t) := by
      show (objectiveMarker ++ [' ']) ++ t = objectiveMarker ++ (' ' :: t)
      simp
    rw [hshape]
    unfold lineObjective
    rw [splitAtFirst_self_append (by decide)]
    try dsimp only
    rw [if_neg (by simp)]
    rw [wtrim_cons_ws (by decide)]
  have hl3 : lineObjective (("CREATED:".data) ++ arrText) = none := by
    have hsaf : splitAtFirst ('U' :: ("SER_OBJECTIVE:".data)) (("CREATED:".data) ++ arrText)
        = none := by
      apply splitAtFirst_eq_none
      intro c hc
      rcases List.mem_append.mp hc with h | h
      · intro he
        rw [he] at h
        revert h
        decide
      · intro he
        have hcl : c.toLower = 'u' := by rw [he]; decide
        exact (h3 c h).2 hcl
    unfold lineObjective
    rw [show objectiveMarker = 'U' :: ("SER_OBJECTIVE:".data) from rfl, hsaf]
  unfold extractUserObjectives
  rw [hsplit]
  simp only [List.filterMap_cons, List.filterMap_nil]
  rw [hl1 t1 h1, hl1 t2 h2, hl3]

theorem c9_created_block (env : Env) (t1 t2 arrText : List Char)
    (h1 : ∀ c ∈ t1, c.toLower ≠ 'c')
    (h2 : ∀ c ∈ t2, c.toLower ≠ 'c')
    (h3 : ∀ c ∈ arrText, c.toLower ≠ 'u' ∧ c.toLower ≠ 'd') :
    (extractEntityChanges env (c9Content t1 t2 arrText)).created
      = (if wtrim arrText = [] then []
         else normalizeParsed (env.jsonParse (wtrim arrText))) := by
  have hU : List.map Char.toLower ("USER_OBJECTIVE: ".data) = ("user_objective: ".data) := by
    decide
  have hC : List.map Char.toLower ("CREATED:".data) = ("created:".data) := by decide
  have hn : Char.toLower '\n' = '\n' := by decide
  have hlow : List.map Char.toLower (c9Content t1 t2 arrText)
      = (("user_objective: ".data) ++ (List.map Char.toLower t1
          ++ ('\n' :: (("user_objective: ".data) ++ (List.map Char.toLower t2 ++ ['\n'])))))
        ++ (("created:".data) ++ List.map Char.toLower arrText) := by
    simp [c9Content, List.map_append, hU, hC, hn, List.append_assoc]
  have hNS : NoStartIn ("created:".data)
      (("user_objective: ".data) ++ (List.map Char.toLower t1
        ++ ('\n' :: (("user_objective: ".data) ++ (List.map Char.toLower t2 ++ ['\n'])))))
      (("created:".data) ++ List.map Char.toLower arrText) := by
    apply noStartIn_append
    · exact noStartIn_of_litBlocks (by decide)
    apply noStartIn_append
    · exact @noStartIn_of_chars 'c' ("reated:".data) _ _ (fun c hc => by
        rcases List.mem_map.mp hc with ⟨c0, hc0, rfl⟩
        exact h1 c0 hc0)
    rw [show ('\n' :: (("user_objective: ".data) ++ (List.map Char.toLower t2 ++ ['\n'])))
        = ['\n'] ++ (("user_objective: ".data) ++ (List.map Char.toLower t2 ++ ['\n']))
      from rfl]
    apply noStartIn_append
    · exact @noStartIn_of_chars 'c' ("reated:".data) _ _ (by decide)
    apply noStartIn_append
    · exact noStartIn_of_litBlocks (by decide)
    apply noStartIn_append
    · exact @noStartIn_of_chars 'c' ("reated:".data) _ _ (fun c hc => by
        rcases List.mem_map.mp hc with ⟨c0, hc0, rfl⟩
        exact h2 c0 hc0)
    · exact @noStartIn_of_chars 'c' ("reated:".data) _ _ (by decide)
  have hocc := @splitAtFirst_append_of_noStart ("created:".data) _ _ (by decide) hNS
  have hupd : splitAtFirst ("updated:".data) (List.map Char.toLower arrText) = none :=
    splitAtFirst_eq_none (fun c hc => by
      rcases List.mem_map.mp hc with ⟨c0, hc0, rfl⟩
      exact (h3 c0 hc0).1)
  have hdel : splitAtFirst ("deleted:".data) (List.map Char.toLower arrText) = none :=
    splitAtFirst_eq_none (fun c hc => by
      rcases List.mem_map.mp hc with ⟨c0, hc0, rfl⟩
      exact (h3 c0 hc0).2)
  have hdrop : (c9Content t1 t2 arrText).drop
      (((("user_objective: ".data) ++ (List.map Char.toLower t1
          ++ ('\n' :: (("user_objective: ".data)
              ++ (List.map Char.toLower t2 ++ ['\n']))))).length)
        + ("created:".data).length)
      = arrText := by
    have hc : c9Content t1 t2 arrText
        = (((("USER_OBJECTIVE: ".data) ++ t1)
            ++ ('\n' :: ((("USER_OBJECTIVE: ".data) ++ t2) ++ ['\n'])))
          ++ ("CREATED:".data)) ++ arrText := by
      simp [c9Content, List.append_assoc]
    rw [hc]
    apply List.drop_left'
    simp [List.length_append, List.length_map]
    omega
  show entityBlock env (c9Content t1 t2 arrText) createdMarker updatedMarker deletedMarker = _
  unfold entityBlock occAfterCI cutBlock occIdxCI createdMarker updatedMarker deletedMarker
  unfold lowerStr
  rw [hlow, hocc]
  try dsimp only
  rw [hdrop]
  rw [hupd, hdel]
  rfl

/-- Claim C9: on a text with exactly two `USER_OBJECTIVE:`-marked lines followed by
a `CREATED:` block (the marked texts drawn from printable ASCII, not
whitespace-only, and over restricted alphabets that keep them from containing
further markers — conditions under which every match of the global regex is
confined to its own line, so the per-line model coincides with the JavaScript
scan), extraction returns exactly the two marked texts, trimmed; the
created-list equals the parsed array — hence matches its length — when the
block parses as an array, and extraction returns the empty created-list (it
never throws: the extractor is a total function) when the text after
`CREATED:` is malformed JSON. -/
theorem c9_directive_extraction (env : Env) (t1 t2 arrText : List Char)
    (h1 : ∀ c ∈ t1, plainChar c = true ∧ c ≠ 'U' ∧ c.toLower ≠ 'c')
    (h1' : wtrim t1 ≠ [])
    (h2 : ∀ c ∈ t2, plainChar c = true ∧ c ≠ 'U' ∧ c.toLower ≠ 'c')
    (h2' : wtrim t2 ≠ [])
    (h3 : ∀ c ∈ arrText, c ≠ '\n' ∧ c.toLower ≠ 'u' ∧ c.toLower ≠ 'd') :
    extractUserObjectives (c9Content t1 t2 arrText) = [wtrim t1, wtrim t2] ∧
    (∀ xs, env.jsonParse (wtrim arrText) = some (Json.arr xs) → wtrim arrText ≠ [] →
      (extractEntityChanges env (c9Content t1 t2 arrText)).created = xs ∧
      (extractEntityChanges env (c9Content t1 t2 arrText)).created.length = xs.length) ∧
    (env.jsonParse (wtrim arrText) = none →
      (extractEntityChanges env (c9Content t1 t2 arrText)).created = []) := by
  have hblock := c9_created_block env t1 t2 arrText
    (fun c hc => (h1 c hc).2.2) (fun c hc => (h2 c hc).2.2)
    (fun c hc => ⟨(h3 c hc).2.1, (h3 c hc).2.2⟩)
  refine ⟨c9_objectives_lines t1 t2 arrText
    (fun c hc => ⟨plainChar_ne_nl (h1 c hc).1, (h1 c hc).2.1⟩)
    (fun c hc => ⟨plainChar_ne_nl (h2 c hc).1, (h2 c hc).2.1⟩)
    (fun c hc => ⟨(h3 c hc).1, (h3 c hc).2.1⟩), ?_, ?_⟩
  · intro xs hxs hne
    rw [hblock, if_neg hne, hxs]
    exact ⟨rfl, rfl⟩
  · intro hnone
    rw [hblock]
    by_cases hb : wtrim arrText = []
    · rw [if_pos hb]
    · rw [if_neg hb, hnone]
      rfl

theorem c9_witness :
    extractUserObjectives (c9Content ("learn math".data) ("rest well".data) (" [1, 2]".data))
      = [wtrim ("learn math".data), wtrim ("rest well".data)] ∧
    (extractEntityChanges envT
        (c9Content ("learn math".data) ("rest well".data) (" [1, 2]".data))).created
      = [Json.num 1, Json.num 2] ∧
    (extractEntityChanges envT
        (c9Content ("learn math".data) ("rest well".data) (" oops]".data))).created = [] := by
  have h := c9_directive_extraction envT ("learn math".data) ("rest well".data)
    (" [1, 2]".data) (by decide) (by decide) (by decide) (by decide) (by decide)
  have h2 := c9_directive_extraction envT ("learn math".data) ("rest well".data)
    (" oops]".data) (by decide) (by decide) (by decide) (by decide) (by decide)
  exact ⟨h.1, (h.2.1 [Json.num 1, Json.num 2] rfl (by decide)).1, h2.2.2 rfl⟩

/-- Claim C5 is the claim's intent but the code drops it in the default mode: the
non-streaming executor never invokes the entity-change extraction — its
result leaves the three lists unassigned even when the reply text carries a
well-formed `CREATED:` block — while the streaming executor, via
`processAIResponse`, extracts both the objectives and the entity changes from
the very same text. -/
theorem c5_default_mode_drops_entity_blocks :
    (executeDefaultAICallP ⟨("CREATED: [1, 2]".data), none⟩).created = none ∧
    (executeDefaultAICallP ⟨("CREATED: [1, 2]".data), none⟩).userObjectives
      = extractUserObjectives ("CREATED: [1, 2]".data) ∧
    (executeStreamingAICallP envT ⟨("CREATED: [1, 2]".data), none⟩).created
      = some [Json.num 1, Json.num 2] ∧
    (extractEntityChanges envT ("CREATED: [1, 2]".data)).created
      = [Json.num 1, Json.num 2] := by
  exact ⟨rfl, rfl, rfl, rfl⟩

theorem c2_witness :
    ∃ resp sF uFr aFr,
      assistantThread envT cfgT reqT stateT = Res.ok resp sF ∧
      resp.message = ("reply".data) ∧
      sF.store.msgs = stateTcreated.store.msgs
        ++ processFrag envT thT ("reply".data) stateTcreated.store :: (uFr ++ aFr) ∧
      (processFrag envT thT ("reply".data) stateTcreated.store).chunkIndex = 0 ∧
      (processFrag envT thT ("reply".data) stateTcreated.store).orderIndex
        = nextOrderIndexPure stateTcreated.store thT.id ∧
      (processFrag envT thT ("reply".data) stateTcreated.store).embedding
        = envT.embed ("reply".data) ∧
      (processFrag envT thT ("reply".data) stateTcreated.store).content = ("reply".data) ∧
      (processFrag envT thT ("reply".data) stateTcreated.store).role = ChatRole.assistant ∧
      (∀ f ∈ uFr, f.role = ChatRole.user
        ∧ f.orderIndex = nextOrderIndexPure stateTcreated.store thT.id + 1) ∧
      (∀ f ∈ aFr, f.role = ChatRole.assistant
        ∧ f.orderIndex = nextOrderIndexPure stateTcreated.store thT.id + 2) ∧
      uFr.map (fun f => f.content) = envT.splitChunks reqT.message ∧
      aFr.map (fun f => f.content) = envT.splitChunks ("reply".data) ∧
      (uFr.map (fun f => f.chunkIndex)).Nodup ∧
      (aFr.map (fun f => f.chunkIndex)).Nodup :=
  @c2_process_and_postprocess_persistence envT cfgT reqT stateT thT stateTcreated
    { content := ("reply".data), toolCalls := none }
    rfl (getThreadM_creates cfgT reqT stateT rfl) rfl rfl rfl (by decide)

end SupaAI
